import Mathlib

/-!
Verification of the metadata address codec from the Provenance repository
(package `types`: `MetadataAddress` and its helpers, plus the `AccMDLinks`
ownership-link list).

Shallow embedding conventions:
* Go byte slices are `List Nat`, each element one byte value (bounds `< 256`
  appear as hypotheses where they matter, mirroring the `byte` type).
* A Go function returning `(T, error)` is embedded with the same shape:
  either `T × Option String` when the `T` component is meaningful on error
  (as in `VerifyMetadataAddressFormat`), or `Except String T` otherwise.
* A Go function that can also panic returns `GoRes T`; `GoRes.panic` marks a
  run-time abort.
* `uuid.UUID` is a 16-byte value; functions take the raw bytes and theorems
  carry `length = 16` hypotheses, which the Go array type enforces.
-/

namespace Prov

/-- Result of a Go computation that may return a value, fail with an error, or panic. -/
inductive GoRes (α : Type) where
  | ok : α → GoRes α
  | err : String → GoRes α
  | panic : String → GoRes α
deriving DecidableEq, Repr

/- The six type-tag byte constants. Modelled from the spec: the file defining
`ScopeKeyPrefix` and friends (keys.go) is not part of the provided source; the
spec says the tags are implementation-chosen distinct byte constants, one per
address type. The concrete values below are the upstream ones. -/

def ScopeKeyPrefixBytes : List Nat := [0x00]

def SessionKeyPrefixBytes : List Nat := [0x01]

def RecordKeyPrefixBytes : List Nat := [0x02]

def ContractSpecificationKeyPrefixBytes : List Nat := [0x03]

def ScopeSpecificationKeyPrefixBytes : List Nat := [0x04]

def RecordSpecificationKeyPrefixBytes : List Nat := [0x05]

/-- Human readable prefix for Scope IDs. -/
def PrefixScope : String := "scope"

/-- Human readable prefix for Session IDs. -/
def PrefixSession : String := "session"

/-- Human readable prefix for Record IDs. -/
def PrefixRecord : String := "record"

/-- Human readable prefix for ScopeSpecification IDs. -/
def PrefixScopeSpecification : String := "scopespec"

/-- Human readable prefix for ContractSpecification IDs. -/
def PrefixContractSpecification : String := "contractspec"

/-- Human readable prefix for RecordSpecification IDs. -/
def PrefixRecordSpecification : String := "recspec"

/-- `uuid.FromBytes`: succeeds exactly when given 16 bytes. -/
def uuidFromBytes (b : List Nat) : Except String (List Nat) :=
  if b.length = 16 then .ok b
  else .error ("invalid UUID (got " ++ Nat.repr b.length ++ " bytes)")

/-- `VerifyMetadataAddressFormat`: checks a byte sequence for proper format,
returning the associated bech32 hrp together with an optional error, exactly
as the Go function returns `(string, error)`. -/
def verifyMetadataAddressFormat (bz : List Nat) : String × Option String :=
  if bz.length = 0 then ("", some "address is empty")
  else
    let info : Option (String × Nat × Bool) :=
      if bz.headD 0 = ScopeKeyPrefixBytes.headD 0 then
        some (PrefixScope, 1 + 16, false)
      else if bz.headD 0 = SessionKeyPrefixBytes.headD 0 then
        some (PrefixSession, 1 + 16 + 16, true)
      else if bz.headD 0 = RecordKeyPrefixBytes.headD 0 then
        some (PrefixRecord, 1 + 16 + 16, false)
      else if bz.headD 0 = ScopeSpecificationKeyPrefixBytes.headD 0 then
        some (PrefixScopeSpecification, 1 + 16, false)
      else if bz.headD 0 = ContractSpecificationKeyPrefixBytes.headD 0 then
        some (PrefixContractSpecification, 1 + 16, false)
      else if bz.headD 0 = RecordSpecificationKeyPrefixBytes.headD 0 then
        some (PrefixRecordSpecification, 1 + 16 + 16, false)
      else none
    match info with
    | none => ("", some ("invalid metadata address type: " ++ Nat.repr (bz.headD 0)))
    | some (hrp, requiredLength, checkSecondaryUUID) =>
      if bz.length ≠ requiredLength then
        (hrp, some ("incorrect address length (expected: " ++ Nat.repr requiredLength ++
          ", actual: " ++ Nat.repr bz.length ++ ")"))
      else
        match uuidFromBytes ((bz.drop 1).take 16) with
        | .error e => (hrp, some ("invalid address bytes of uuid, expected uuid compliant: " ++ e))
        | .ok _ =>
          if checkSecondaryUUID then
            match uuidFromBytes ((bz.drop 17).take 16) with
            | .error e =>
              (hrp, some ("invalid address bytes of secondary uuid, expected uuid compliant: " ++ e))
            | .ok _ => (hrp, none)
          else (hrp, none)

/-- Spec-side table (from the claim's words): a known tag's required total
length, 17 for Scope / ScopeSpecification / ContractSpecification and 33 for
Session / Record / RecordSpecification; `none` for an unknown tag. -/
def requiredLengthForTag (t : Nat) : Option Nat :=
  if t = ScopeKeyPrefixBytes.headD 0 ∨ t = ScopeSpecificationKeyPrefixBytes.headD 0 ∨
      t = ContractSpecificationKeyPrefixBytes.headD 0 then some 17
  else if t = SessionKeyPrefixBytes.headD 0 ∨ t = RecordKeyPrefixBytes.headD 0 ∨
      t = RecordSpecificationKeyPrefixBytes.headD 0 then some 33
  else none

/-- `isTypeOneOf`: true if the first byte equals the first byte of any provided option. -/
def isTypeOneOf (ma : List Nat) (options : List (List Nat)) : Bool :=
  match ma with
  | [] => false
  | t :: _ => options.any (fun o => match o with | [] => false | p :: _ => t == p)

/-- Go slice expression `l[lo:hi]`: panics when the bounds are out of range
(capacity is modelled as the length). -/
def goSlice (l : List Nat) (lo hi : Nat) : GoRes (List Nat) :=
  if lo ≤ hi ∧ hi ≤ l.length then .ok ((l.drop lo).take (hi - lo))
  else .panic "slice bounds out of range"

/-- `ScopeSessionIteratorPrefix`: iterator prefix for all sessions in the scope
designated by this address. -/
def scopeSessionIteratorPrefixBytes (ma : List Nat) : GoRes (List Nat) :=
  if ma.length < 1 then .ok SessionKeyPrefixBytes
  else if ¬ isTypeOneOf ma [ScopeKeyPrefixBytes, SessionKeyPrefixBytes, RecordKeyPrefixBytes] then
    .err "this metadata address does not contain a scope uuid"
  else
    match goSlice ma 1 17 with
    | .ok s => .ok (SessionKeyPrefixBytes ++ s)
    | .err e => .err e
    | .panic e => .panic e

/-- `ScopeRecordIteratorPrefix`: iterator prefix for all records in the scope
designated by this address. -/
def scopeRecordIteratorPrefixBytes (ma : List Nat) : GoRes (List Nat) :=
  if ma.length < 1 then .ok RecordKeyPrefixBytes
  else if ¬ isTypeOneOf ma [ScopeKeyPrefixBytes, SessionKeyPrefixBytes, RecordKeyPrefixBytes] then
    .err "this metadata address does not contain a scope uuid"
  else
    match goSlice ma 1 17 with
    | .ok s => .ok (RecordKeyPrefixBytes ++ s)
    | .err e => .err e
    | .panic e => .panic e

/-- `ContractSpecRecordSpecIteratorPrefix`: iterator prefix for all record
specifications under the contract specification designated by this address. -/
def contractSpecRecordSpecIteratorPrefixBytes (ma : List Nat) : GoRes (List Nat) :=
  if ma.length < 1 then .ok RecordSpecificationKeyPrefixBytes
  else if ¬ isTypeOneOf ma
      [ContractSpecificationKeyPrefixBytes, RecordSpecificationKeyPrefixBytes] then
    .err "this metadata address does not contain a contract spec uuid"
  else
    match goSlice ma 1 17 with
    | .ok s => .ok (RecordSpecificationKeyPrefixBytes ++ s)
    | .err e => .err e
    | .panic e => .panic e

/-- Characters treated as white space (the ASCII subset of the Unicode white
space recognized by `strings.TrimSpace`; the codec only handles ASCII text). -/
def isGoSpace (c : Char) : Bool :=
  c = ' ' ∨ c = '\t' ∨ c = '\n' ∨ c = '\x0b' ∨ c = '\x0c' ∨ c = '\r'

/-- `strings.TrimSpace` (ASCII model). -/
def goTrimSpace (s : String) : String :=
  String.mk (((s.data.dropWhile isGoSpace).reverse.dropWhile isGoSpace).reverse)

/-- `strings.ToLower` (ASCII model). -/
def goToLower (s : String) : String :=
  String.mk (s.data.map (fun c =>
    if 65 ≤ c.toNat ∧ c.toNat ≤ 90 then Char.ofNat (c.toNat + 32) else c))

/-- Lower-case hex digit for a value below 16. -/
def hexDigit (n : Nat) : Char :=
  if n < 10 then Char.ofNat (48 + n) else Char.ofNat (87 + n)

/-- `hex.EncodeToString`: two lower-case hex digits per byte. -/
def hexEncodeList (bs : List Nat) : String :=
  String.mk (bs.flatMap (fun b => [hexDigit (b / 16), hexDigit (b % 16)]))

/-- Standard base64 alphabet character for a 6-bit value. -/
def base64Char (n : Nat) : Char :=
  if n < 26 then Char.ofNat (65 + n)
  else if n < 52 then Char.ofNat (71 + n)
  else if n < 62 then Char.ofNat (n - 4)
  else if n = 62 then '+'
  else '/'

/-- Character list of the standard (padded) base64 encoding of a byte list. -/
def base64Chars : List Nat → List Char
  | [] => []
  | [a] => [base64Char (a / 4), base64Char (a % 4 * 16), '=', '=']
  | [a, b] =>
    [base64Char (a / 4), base64Char (a % 4 * 16 + b / 16), base64Char (b % 16 * 4), '=']
  | a :: b :: c :: rest =>
    base64Char (a / 4) :: base64Char (a % 4 * 16 + b / 16) ::
      base64Char (b % 16 * 4 + c / 64) :: base64Char (c % 64) :: base64Chars rest

/-- `base64.StdEncoding.EncodeToString`. -/
def base64Encode (bs : List Nat) : String := String.mk (base64Chars bs)

/-- `uuid.UUID.String()`: canonical 8-4-4-4-12 lower-case hex form of 16 bytes. -/
def uuidStringOf (bs : List Nat) : String :=
  hexEncodeList (bs.take 4) ++ "-" ++ hexEncodeList ((bs.drop 4).take 2) ++ "-" ++
    hexEncodeList ((bs.drop 6).take 2) ++ "-" ++ hexEncodeList ((bs.drop 8).take 2) ++ "-" ++
    hexEncodeList (bs.drop 10)

/-- The `uid, _ := uuid.FromBytes(bs)` pattern followed by `uid.String()`: on a
length mismatch the zero UUID is rendered. -/
def uuidStringIgnoringErr (bs : List Nat) : String :=
  if bs.length = 16 then uuidStringOf bs else uuidStringOf (List.replicate 16 0)

/-- Go `%#x` of a byte: `0x` followed by minimal lower-case hex digits. -/
def goHexLit (n : Nat) : String :=
  "0x" ++ (if n / 16 = 0 then "" else String.mk [hexDigit (n / 16)]) ++ String.mk [hexDigit (n % 16)]

/-- Go `%#v` of a `MetadataAddress` (the `Format` fallback path): a `[]byte`
composite literal with the type name substituted. The `nil` slice rendering is
used for the empty address. -/
def goSharpV (ma : List Nat) : String :=
  if ma.isEmpty then "MetadataAddress(nil)"
  else "MetadataAddress\x7b" ++ String.intercalate ", " (ma.map goHexLit) ++ "\x7d"

/-- Go `%q` of a string value (no escaping is needed for the printable ASCII
strings produced by this codec). -/
def goQuote (s : String) : String := "\"" ++ s ++ "\""

/-- The bech32 data character set. -/
def bech32CharsetChars : List Char := "qpzry9x8gf2tvdw0s3jn54khce6mua7l".data

/-- The bech32 data character set as byte values. -/
def bech32CharsetCodes : List Nat := bech32CharsetChars.map Char.toNat

/-- Character code for a 5-bit group value (`charset[v]`). -/
def bech32CharsetCode (v : Nat) : Nat := bech32CharsetCodes.getD v 0

/-- First index of a value in a list, if present. -/
def indexOfNat (l : List Nat) (v : Nat) : Option Nat :=
  match l with
  | [] => none
  | x :: xs => if x = v then some 0 else (indexOfNat xs v).map (· + 1)

/-- Last index of a value in a list, if present (`strings.LastIndexByte`). -/
def lastIndexOfNat (l : List Nat) (v : Nat) : Option Nat :=
  match l with
  | [] => none
  | x :: xs =>
    match lastIndexOfNat xs v with
    | some i => some (i + 1)
    | none => if x = v then some 0 else none

/-- bech32 `toBytes`: reverse charset lookup of every data character. -/
def bech32ToBytes : List Nat → Option (List Nat)
  | [] => some []
  | c :: cs =>
    match indexOfNat bech32CharsetCodes c with
    | none => none
    | some v => (bech32ToBytes cs).map (v :: ·)

/-- bech32 checksum generator constants. -/
def bech32Gen : List Nat := [0x3b6a57b2, 0x26508e6d, 0x1ea119fa, 0x3d4233dd, 0x2a1462b3]

/-- One step of `bech32Polymod`. -/
def bech32PolymodStep (chk v : Nat) : Nat :=
  let b := chk >>> 25
  let c0 := ((chk &&& 0x1ffffff) <<< 5) ^^^ v
  (List.range 5).foldl
    (fun c i => if (b >>> i) &&& 1 = 1 then c ^^^ bech32Gen.getD i 0 else c) c0

/-- `bech32Polymod` over a list of 5-bit values. -/
def bech32Polymod (values : List Nat) : Nat := values.foldl bech32PolymodStep 1

/-- `bech32HrpExpand` over the hrp's character codes. -/
def bech32HrpExpand (hrp : List Nat) : List Nat :=
  hrp.map (fun c => c >>> 5) ++ [0] ++ hrp.map (fun c => c &&& 31)

/-- `bech32Checksum`: the six 5-bit checksum values for an hrp and data. -/
def bech32ChecksumOf (hrp data : List Nat) : List Nat :=
  let values := bech32HrpExpand hrp ++ data
  let pm := bech32Polymod (values ++ [0, 0, 0, 0, 0, 0]) ^^^ 1
  (List.range 6).map (fun i => (pm >>> (5 * (5 - i))) &&& 31)

/-- `bech32VerifyChecksum`. -/
def bech32VerifyChecksumB (hrp data : List Nat) : Bool :=
  bech32Polymod (bech32HrpExpand hrp ++ data) == 1

/-- Inner loop of `bech32.ConvertBits`: extracts the top bits of `b` into
`nextByte`, emitting completed groups. State is `(regrouped, filledBits,
nextByte)`. The `toExtract = 0` branch is unreachable for the callers (they
keep `filledBits < toBits`); in Go that branch would spin forever. -/
def convInner (toBits remFromBits b filledBits nextByte : Nat) (regrouped : List Nat) :
    List Nat × Nat × Nat :=
  if _h : remFromBits = 0 then (regrouped, filledBits, nextByte)
  else
    let toExtract := min remFromBits (toBits - filledBits)
    if _h2 : toExtract = 0 then (regrouped, filledBits, nextByte)
    else
      let nextByte2 := ((nextByte <<< toExtract) ||| (b >>> (8 - toExtract))) % 256
      let b2 := (b <<< toExtract) % 256
      let filled2 := filledBits + toExtract
      if filled2 = toBits then
        convInner toBits (remFromBits - toExtract) b2 0 0 (regrouped ++ [nextByte2])
      else
        convInner toBits (remFromBits - toExtract) b2 filled2 nextByte2 regrouped
termination_by remFromBits
decreasing_by all_goals omega

/-- `bech32.ConvertBits`: regroups a byte slice from `fromBits`-bit groups to
`toBits`-bit groups, optionally padding the final group. -/
def convertBits (data : List Nat) (fromBits toBits : Nat) (pad : Bool) :
    Except String (List Nat) :=
  if fromBits < 1 ∨ fromBits > 8 ∨ toBits < 1 ∨ toBits > 8 then
    .error "only bit groups between 1 and 8 allowed"
  else
    let st := data.foldl
      (fun (st : List Nat × Nat × Nat) v =>
        convInner toBits fromBits ((v <<< (8 - fromBits)) % 256) st.2.1 st.2.2 st.1)
      ([], 0, 0)
    let regrouped := st.1
    let filledBits := st.2.1
    let nextByte := st.2.2
    if pad ∧ 0 < filledBits then
      .ok (regrouped ++ [(nextByte <<< (toBits - filledBits)) % 256])
    else if 0 < filledBits ∧ (4 < filledBits ∨ nextByte ≠ 0) then
      .error "invalid incomplete group"
    else
      .ok regrouped

/-- `bech32.Encode`: hrp, separator, data and checksum mapped through the charset. -/
def bech32EncodeStr (hrp : String) (data : List Nat) : Except String String :=
  let hrpCodes := hrp.data.map Char.toNat
  let combined := data ++ bech32ChecksumOf hrpCodes data
  if combined.all (· < 32) then
    .ok (hrp ++ "1" ++ String.mk (combined.map (fun v => Char.ofNat (bech32CharsetCode v))))
  else .error "unable to convert data bytes to chars: invalid data byte"

/-- ASCII lower-casing of a character code. -/
def toLowerCode (c : Nat) : Nat := if 65 ≤ c ∧ c ≤ 90 then c + 32 else c

/-- `bech32.DecodeNoLimit`: character checks, case normalization, separator
split, charset decoding and checksum verification. -/
def bech32DecodeNoLimit (bech : String) : Except String (String × List Nat) :=
  let cs0 := bech.data.map Char.toNat
  if cs0.length < 8 then .error ("invalid bech32 string length " ++ Nat.repr cs0.length)
  else if ¬ cs0.all (fun c => 33 ≤ c ∧ c ≤ 126) then .error "invalid character in string"
  else
    let hasLower := cs0.any (fun c => 97 ≤ c ∧ c ≤ 122)
    let hasUpper := cs0.any (fun c => 65 ≤ c ∧ c ≤ 90)
    if hasLower ∧ hasUpper then .error "string not all lowercase or all uppercase"
    else
      let cs := if hasUpper then cs0.map toLowerCode else cs0
      match lastIndexOfNat cs 49 with
      | none => .error "invalid separator index -1"
      | some one =>
        if one < 1 ∨ one + 7 > cs.length then
          .error ("invalid separator index " ++ Nat.repr one)
        else
          match bech32ToBytes (cs.drop (one + 1)) with
          | none => .error "invalid character not part of charset"
          | some decoded =>
            if bech32VerifyChecksumB (cs.take one) decoded then
              .ok (String.mk ((cs.take one).map Char.ofNat), decoded.take (decoded.length - 6))
            else .error "invalid checksum"

/-- `bech32.ConvertAndEncode` (the cosmos wrapper). -/
def convertAndEncode (hrp : String) (data : List Nat) : Except String String :=
  match convertBits data 8 5 true with
  | .error e => .error ("encoding bech32 failed: " ++ e)
  | .ok converted => bech32EncodeStr hrp converted

/-- `bech32.DecodeAndConvert` (the cosmos wrapper). -/
def decodeAndConvert (bech : String) : Except String (String × List Nat) :=
  match bech32DecodeNoLimit bech with
  | .error e => .error ("decoding bech32 failed: " ++ e)
  | .ok (hrp, data) =>
    match convertBits data 5 8 false with
    | .error e => .error ("decoding bech32 failed: " ++ e)
    | .ok converted => .ok (hrp, converted)

/-- `MetadataAddress.String()`: empty for the empty address, the `%#v` fallback
for an invalid address, and the bech32 encoding otherwise. The Go encode error
branch panics; it is unreachable (8-to-5 bit conversion with padding cannot
fail and produces only values below 32), so the fallback value stands in. -/
def maString (ma : List Nat) : String :=
  if ma.isEmpty then ""
  else
    match verifyMetadataAddressFormat ma with
    | (_, some _) => goSharpV ma
    | (hrp, none) =>
      match convertAndEncode hrp ma with
      | .ok s => s
      | .error _ => goSharpV ma

/-- `ParseMetadataAddressFromBech32`. -/
def parseMetadataAddressFromBech32 (address : String) : Except String (List Nat × String) :=
  if (goTrimSpace address).length = 0 then .error "empty address string is not allowed"
  else
    match decodeAndConvert address with
    | .error e => .error e
    | .ok (hrp, bz) =>
      match verifyMetadataAddressFormat bz with
      | (_, some e) => .error e
      | (expectedHrp, none) =>
        if expectedHrp ≠ hrp then
          .error ("invalid bech32 prefix; expected " ++ expectedHrp ++ ", got " ++ hrp)
        else .ok (bz, hrp)

/-- The round-trip composition `FromText(ToText(addr))` of the claims. -/
def stringThenParse (ma : List Nat) : Except String (List Nat × String) :=
  parseMetadataAddressFromBech32 (maString ma)

/-- Re-encoding raw address bytes under an arbitrary (validly checksummed) hrp
and then parsing the text, as in the prefix-mismatch property. -/
def reencodeWithHrpThenParse (hrp : String) (ma : List Nat) :
    Except String (List Nat × String) :=
  match convertAndEncode hrp ma with
  | .error e => .error e
  | .ok s => parseMetadataAddressFromBech32 s

/-- UTF-8 encoding of one character. -/
def utf8Bytes (c : Char) : List Nat :=
  let n := c.toNat
  if n < 0x80 then [n]
  else if n < 0x800 then [0xc0 + n / 64, 0x80 + n % 64]
  else if n < 0x10000 then [0xe0 + n / 4096, 0x80 + n / 64 % 64, 0x80 + n % 64]
  else [0xf0 + n / 262144, 0x80 + n / 4096 % 64, 0x80 + n / 64 % 64, 0x80 + n % 64]

/-- UTF-8 bytes of a string (Go `[]byte(s)`). -/
def stringToBytes (s : String) : List Nat := s.data.flatMap utf8Bytes

/-- 32-bit right rotation. -/
def rotr32 (x n : Nat) : Nat := ((x >>> n) ||| (x <<< (32 - n))) % 4294967296

/-- SHA-256 round constants. -/
def sha256K : List Nat := [
  1116352408, 1899447441, 3049323471, 3921009573, 961987163,
  1508970993, 2453635748, 2870763221, 3624381080, 310598401,
  607225278, 1426881987, 1925078388, 2162078206, 2614888103,
  3248222580, 3835390401, 4022224774, 264347078, 604807628,
  770255983, 1249150122, 1555081692, 1996064986, 2554220882,
  2821834349, 2952996808, 3210313671, 3336571891, 3584528711,
  113926993, 338241895, 666307205, 773529912, 1294757372,
  1396182291, 1695183700, 1986661051, 2177026350, 2456956037,
  2730485921, 2820302411, 3259730800, 3345764771, 3516065817,
  3600352804, 4094571909, 275423344, 430227734, 506948616,
  659060556, 883997877, 958139571, 1322822218, 1537002063,
  1747873779, 1955562222, 2024104815, 2227730452, 2361852424,
  2428436474, 2756734187, 3204031479, 3329325298]

/-- SHA-256 working state: eight 32-bit words. -/
structure Sha8 where
  a : Nat
  b : Nat
  c : Nat
  d : Nat
  e : Nat
  f : Nat
  g : Nat
  hh : Nat
deriving DecidableEq, Repr

/-- SHA-256 initial hash values. -/
def sha256H0 : Sha8 :=
  ⟨1779033703, 3144134277, 1013904242, 2773480762,
   1359893119, 2600822924, 528734635, 1541459225⟩

/-- Big-endian bytes of a 64-bit length value. -/
def be64 (n : Nat) : List Nat := (List.range 8).map (fun i => n / 2 ^ (8 * (7 - i)) % 256)

/-- Big-endian bytes of a 32-bit word. -/
def be32 (n : Nat) : List Nat := [n / 16777216 % 256, n / 65536 % 256, n / 256 % 256, n % 256]

/-- SHA-256 message padding. -/
def sha256Pad (msg : List Nat) : List Nat :=
  msg ++ [0x80] ++ List.replicate ((119 - msg.length % 64) % 64) 0 ++ be64 (8 * msg.length)

/-- Split a byte list into 64-byte chunks. -/
def chunksOf64 : List Nat → List (List Nat)
  | [] => []
  | x :: xs => ((x :: xs).take 64) :: chunksOf64 ((x :: xs).drop 64)
termination_by l => l.length
decreasing_by simp [List.length_drop]; omega

/-- Big-endian 32-bit words of a chunk. -/
def toWords : List Nat → List Nat
  | a :: b :: c :: d :: rest => (a * 16777216 + b * 65536 + c * 256 + d) :: toWords rest
  | _ => []

/-- SHA-256 message schedule: extend 16 words to 64. -/
def sha256Extend (w0 : List Nat) : List Nat :=
  (List.range 48).foldl
    (fun w _ =>
      let i := w.length
      let w15 := w.getD (i - 15) 0
      let w2 := w.getD (i - 2) 0
      let s0 := rotr32 w15 7 ^^^ rotr32 w15 18 ^^^ (w15 >>> 3)
      let s1 := rotr32 w2 17 ^^^ rotr32 w2 19 ^^^ (w2 >>> 10)
      w ++ [(w.getD (i - 16) 0 + s0 + w.getD (i - 7) 0 + s1) % 4294967296])
    w0

/-- One SHA-256 compression round. -/
def sha256Round (st : Sha8) (ki wi : Nat) : Sha8 :=
  let s1 := rotr32 st.e 6 ^^^ rotr32 st.e 11 ^^^ rotr32 st.e 25
  let ch := (st.e &&& st.f) ^^^ ((4294967295 ^^^ st.e) &&& st.g)
  let temp1 := (st.hh + s1 + ch + ki + wi) % 4294967296
  let s0 := rotr32 st.a 2 ^^^ rotr32 st.a 13 ^^^ rotr32 st.a 22
  let maj := (st.a &&& st.b) ^^^ (st.a &&& st.c) ^^^ (st.b &&& st.c)
  let temp2 := (s0 + maj) % 4294967296
  ⟨(temp1 + temp2) % 4294967296, st.a, st.b, st.c,
   (st.d + temp1) % 4294967296, st.e, st.f, st.g⟩

/-- SHA-256 compression of one 64-word schedule into the running hash. -/
def sha256Compress (hs : Sha8) (w : List Nat) : Sha8 :=
  let fin := (List.range 64).foldl
    (fun st i => sha256Round st (sha256K.getD i 0) (w.getD i 0)) hs
  ⟨(hs.a + fin.a) % 4294967296, (hs.b + fin.b) % 4294967296,
   (hs.c + fin.c) % 4294967296, (hs.d + fin.d) % 4294967296,
   (hs.e + fin.e) % 4294967296, (hs.f + fin.f) % 4294967296,
   (hs.g + fin.g) % 4294967296, (hs.hh + fin.hh) % 4294967296⟩

/-- `sha256.Sum256`: the 32-byte SHA-256 digest of a byte list. -/
def sha256Bytes (msg : List Nat) : List Nat :=
  let hs := (chunksOf64 (sha256Pad msg)).foldl
    (fun hs chunk => sha256Compress hs (sha256Extend (toWords chunk))) sha256H0
  be32 hs.a ++ be32 hs.b ++ be32 hs.c ++ be32 hs.d ++
    be32 hs.e ++ be32 hs.f ++ be32 hs.g ++ be32 hs.hh

/-- `ScopeMetadataAddress`. -/
def scopeMetadataAddress (scopeUUID : List Nat) : List Nat :=
  ScopeKeyPrefixBytes ++ scopeUUID

/-- `SessionMetadataAddress`. -/
def sessionMetadataAddress (scopeUUID sessionUUID : List Nat) : List Nat :=
  SessionKeyPrefixBytes ++ scopeUUID ++ sessionUUID

/-- `RecordMetadataAddress`: trims and lower-cases the name, panics when the
normalized name is empty, and appends the first 16 bytes of its SHA-256. -/
def recordMetadataAddress (scopeUUID : List Nat) (name : String) : GoRes (List Nat) :=
  let addr := RecordKeyPrefixBytes ++ scopeUUID
  let name2 := goToLower (goTrimSpace name)
  if name2.length < 1 then .panic "missing name value for record metadata address"
  else .ok (addr ++ (sha256Bytes (stringToBytes name2)).take 16)

/-- `ScopeSpecMetadataAddress`. -/
def scopeSpecMetadataAddress (specUUID : List Nat) : List Nat :=
  ScopeSpecificationKeyPrefixBytes ++ specUUID

/-- `ContractSpecMetadataAddress`. -/
def contractSpecMetadataAddress (specUUID : List Nat) : List Nat :=
  ContractSpecificationKeyPrefixBytes ++ specUUID

/-- `RecordSpecMetadataAddress`: trims and lower-cases the name, panics when the
normalized name is empty, and appends the first 16 bytes of its SHA-256. -/
def recordSpecMetadataAddress (contractSpecUUID : List Nat) (name : String) : GoRes (List Nat) :=
  let addr := RecordSpecificationKeyPrefixBytes ++ contractSpecUUID
  let name2 := goToLower (goTrimSpace name)
  if name2.length < 1 then .panic "missing name value for record spec metadata address"
  else .ok (addr ++ (sha256Bytes (stringToBytes name2)).take 16)

/-- `MetadataAddress.PrimaryUUID`. -/
def primaryUUIDOf (ma : List Nat) : Except String (List Nat) :=
  if ma.length < 1 then .error "address empty"
  else if ¬ isTypeOneOf ma [ScopeKeyPrefixBytes, SessionKeyPrefixBytes, RecordKeyPrefixBytes,
      ScopeSpecificationKeyPrefixBytes, ContractSpecificationKeyPrefixBytes,
      RecordSpecificationKeyPrefixBytes] then
    .error ("invalid address type out of valid range (got: " ++ Nat.repr (ma.headD 0) ++ ")")
  else if ma.length < 17 then
    .error ("incorrect address length (must be at least 17, actual: " ++ Nat.repr ma.length ++ ")")
  else uuidFromBytes ((ma.drop 1).take 16)

/-- `MetadataAddress.ScopeUUID`. -/
def scopeUUIDOf (ma : List Nat) : Except String (List Nat) :=
  if ¬ isTypeOneOf ma [ScopeKeyPrefixBytes, SessionKeyPrefixBytes, RecordKeyPrefixBytes] then
    .error ("this metadata address (" ++ maString ma ++ ") does not contain a scope uuid")
  else primaryUUIDOf ma

/-- `MetadataAddress.SecondaryUUID`. -/
def secondaryUUIDOf (ma : List Nat) : Except String (List Nat) :=
  if ma.length < 1 then .error "address empty"
  else if ¬ isTypeOneOf ma [SessionKeyPrefixBytes] then
    .error ("invalid address type out of valid range (got: " ++ Nat.repr (ma.headD 0) ++ ")")
  else if ma.length < 33 then
    .error ("incorrect address length (must be at least 33, actual: " ++ Nat.repr ma.length ++ ")")
  else uuidFromBytes ((ma.drop 17).take 16)

/-- `MetadataAddress.NameHash`: returns the 16 allocated bytes together with an
optional error, as the Go function returns `([]byte, error)` with the zeroed
allocation on failure. -/
def nameHashOf (ma : List Nat) : List Nat × Option String :=
  if ma.length < 1 then (List.replicate 16 0, some "address empty")
  else if ¬ isTypeOneOf ma [RecordKeyPrefixBytes, RecordSpecificationKeyPrefixBytes] then
    (List.replicate 16 0,
      some ("invalid address type out of valid range (got: " ++ Nat.repr (ma.headD 0) ++ ")"))
  else if ma.length < 33 then
    (List.replicate 16 0,
      some ("incorrect address length (must be at least 33, actual: " ++
        Nat.repr ma.length ++ ")"))
  else ((ma.drop 17).take 16, none)

/-- `MetadataAddress.ContractSpecUUID`. -/
def contractSpecUUIDOf (ma : List Nat) : Except String (List Nat) :=
  if ¬ isTypeOneOf ma [ContractSpecificationKeyPrefixBytes, RecordSpecificationKeyPrefixBytes] then
    .error ("this metadata address (" ++ maString ma ++
      ") does not contain a contract specification uuid")
  else primaryUUIDOf ma

/-- `MetadataAddress.AsScopeAddress`. -/
def asScopeAddress (ma : List Nat) : Except String (List Nat) :=
  match scopeUUIDOf ma with
  | .error e => .error e
  | .ok u => .ok (scopeMetadataAddress u)

/-- `MetadataAddress.AsContractSpecAddress`. -/
def asContractSpecAddress (ma : List Nat) : Except String (List Nat) :=
  match contractSpecUUIDOf ma with
  | .error e => .error e
  | .ok u => .ok (contractSpecMetadataAddress u)

/-- `MetadataAddress.AsRecordSpecAddress`: extracts the contract spec UUID and
delegates to `RecordSpecMetadataAddress` with no check on the name. -/
def asRecordSpecAddress (ma : List Nat) (name : String) : GoRes (List Nat) :=
  match contractSpecUUIDOf ma with
  | .error e => .err e
  | .ok u => recordSpecMetadataAddress u name

/-- `MetadataAddress.IsScopeAddress`. -/
def isScopeAddress (ma : List Nat) : Bool :=
  match verifyMetadataAddressFormat ma with
  | (hrp, none) => hrp == PrefixScope
  | _ => false

/-- `MetadataAddress.IsContractSpecificationAddress`. -/
def isContractSpecificationAddress (ma : List Nat) : Bool :=
  match verifyMetadataAddressFormat ma with
  | (hrp, none) => hrp == PrefixContractSpecification
  | _ => false

/-- `MetadataAddress.Prefix()`: the format check's hrp, with the error dropped
whenever a (non-empty) hrp was determined. -/
def prefixOf (ma : List Nat) : String × Option String :=
  let pe := verifyMetadataAddressFormat ma
  if pe.1.length = 0 then pe else (pe.1, none)

/-- `MetadataAddressDetails`: breakdown of an address's components. -/
structure MetadataAddressDetails where
  Address : List Nat := []
  AddressPrefixBytes : List Nat := []
  AddressPrimaryUUID : List Nat := []
  AddressSecondaryUUID : List Nat := []
  AddressNameHash : List Nat := []
  AddressExcess : List Nat := []
  PrefixStr : String := ""
  PrimaryUUID : String := ""
  SecondaryUUID : String := ""
  NameHashHex : String := ""
  NameHashBase64 : String := ""
  ExcessHex : String := ""
  ExcessBase64 : String := ""
  ParentAddress : List Nat := []
deriving DecidableEq, Repr

/-- `MetadataAddress.GetDetails`: total decomposition of any byte sequence. -/
def getDetails (ma : List Nat) : MetadataAddressDetails :=
  let addr := ma
  let r0 : MetadataAddressDetails := { Address := addr }
  let r1 := if 1 ≤ addr.length then
      let ap := addr.take 1
      let pe := prefixOf addr
      let p := match pe.2 with
        | some _ => hexEncodeList ap
        | none => pe.1
      { r0 with AddressPrefixBytes := ap, PrefixStr := p }
    else r0
  let r2 := if 17 ≤ addr.length then
      { r1 with
        AddressPrimaryUUID := (addr.drop 1).take 16,
        PrimaryUUID := uuidStringIgnoringErr ((addr.drop 1).take 16) }
    else r1
  let secondaryRes := secondaryUUIDOf addr
  let r3 := match secondaryRes with
    | .ok u => { r2 with AddressSecondaryUUID := u, SecondaryUUID := uuidStringOf u }
    | .error _ => r2
  let nameRes := nameHashOf addr
  let r4 := match nameRes.2 with
    | none =>
      { r3 with
        AddressNameHash := nameRes.1,
        NameHashHex := hexEncodeList nameRes.1,
        NameHashBase64 := base64Encode nameRes.1 }
    | some _ => r3
  let secondaryOk := match secondaryRes with | .ok _ => true | .error _ => false
  let expectedLength := if secondaryOk || nameRes.2.isNone then 17 + 16 else 17
  let r5 := if expectedLength < addr.length then
      { r4 with
        AddressExcess := addr.drop expectedLength,
        ExcessHex := hexEncodeList (addr.drop expectedLength),
        ExcessBase64 := base64Encode (addr.drop expectedLength) }
    else r4
  let r6 := if ¬ isScopeAddress addr then
      match asScopeAddress addr with
      | .ok p => { r5 with ParentAddress := p }
      | .error _ => r5
    else r5
  if ¬ isContractSpecificationAddress addr then
    match asContractSpecAddress addr with
    | .ok p => { r6 with ParentAddress := p }
    | .error _ => r6
  else r6

/-- `getNameForHRP`: the formal name used for each metadata hrp. -/
def getNameForHRP (hrp : String) : String :=
  if hrp = PrefixScope ∨ hrp = PrefixSession ∨ hrp = PrefixRecord then hrp
  else if hrp = PrefixScopeSpecification ∨ hrp = PrefixContractSpecification then
    (hrp.dropRight 4) ++ " specification"
  else if hrp = PrefixRecordSpecification then "record specification"
  else "<" ++ goQuote hrp ++ ">"

/-- `VerifyMetadataAddressHasType`: format check plus hrp comparison, returning
the error (if any) as the Go function's `error` result. -/
def verifyMetadataAddressHasType (ma : List Nat) (expHRP : String) : Option String :=
  match verifyMetadataAddressFormat ma with
  | (_, some e) =>
    some ("invalid " ++ getNameForHRP expHRP ++ " metadata address " ++ goSharpV ma ++ ": " ++ e)
  | (hrp, none) =>
    if hrp ≠ expHRP then
      some ("invalid " ++ getNameForHRP expHRP ++ " id " ++ goQuote (maString ma) ++
        ": wrong type")
    else none

/-- `MetadataAddress.ValidateIsScopeAddress`. -/
def validateIsScopeAddress (ma : List Nat) : Option String :=
  verifyMetadataAddressHasType ma PrefixScope

/-- `AccMDLink`: an account address associated with a metadata address. -/
structure AccMDLink where
  AccAddr : List Nat
  MDAddr : List Nat
deriving DecidableEq, Repr

/-- Loop body of `AccMDLinks.ValidateForScopes`, with the `seenMDAddrs` map as a
total function from raw address bytes to its `int8` state. -/
def validateForScopesLoop : List (Option AccMDLink) → (List Nat → Nat) → Option String
  | [], _ => none
  | none :: _, _ => some "nil entry not allowed"
  | some link :: rest, seen =>
    let key := link.MDAddr
    if seen key = 0 then
      match validateIsScopeAddress link.MDAddr with
      | some e => some e
      | none =>
        if link.AccAddr.length = 0 then
          some ("no account address associated with metadata address " ++
            goQuote (maString link.MDAddr))
        else validateForScopesLoop rest (fun k => if k = key then 1 else seen k)
    else if seen key = 1 then
      some ("duplicate metadata address " ++ goQuote (maString link.MDAddr) ++ " not allowed")
    else
      if link.AccAddr.length = 0 then
        some ("no account address associated with metadata address " ++
          goQuote (maString link.MDAddr))
      else validateForScopesLoop rest seen

/-- `AccMDLinks.ValidateForScopes`: `none` means the list is valid. -/
def validateForScopes (a : List (Option AccMDLink)) : Option String :=
  if a.length = 0 then none
  else validateForScopesLoop a (fun _ => 0)

/-- The error kinds named by the spec for ownership-link validation. -/
inductive ScopeLinkIssue where
  | nilEntry : ScopeLinkIssue
  | duplicateAddress : List Nat → ScopeLinkIssue
  | notAScopeAddress : List Nat → ScopeLinkIssue
  | missingAccount : List Nat → ScopeLinkIssue
deriving DecidableEq, Repr

/-- Spec-side description (from the claim's words): the first applicable issue
for one entry, checked in the order nil entry, duplicate address, not a scope
address (first sighting only), missing account. -/
def firstIssueForLink (link : Option AccMDLink) (seen : List (List Nat)) :
    Option ScopeLinkIssue :=
  match link with
  | none => some .nilEntry
  | some l =>
    if l.MDAddr ∈ seen then some (.duplicateAddress l.MDAddr)
    else if ¬ isScopeAddress l.MDAddr then some (.notAScopeAddress l.MDAddr)
    else if l.AccAddr = [] then some (.missingAccount l.MDAddr)
    else none

/-- Spec-side description (from the claim's words): process entries in order
with a seen-set keyed by raw address bytes, short-circuiting on the first
entry with an issue. -/
def validateForScopesModel : List (Option AccMDLink) → List (List Nat) → Option ScopeLinkIssue
  | [], _ => none
  | none :: _, _ => some .nilEntry
  | some l :: rest, seen =>
    match firstIssueForLink (some l) seen with
    | some i => some i
    | none => validateForScopesModel rest (l.MDAddr :: seen)

/-- The Go error message corresponding to each spec-side issue kind. -/
def renderScopeLinkIssue : ScopeLinkIssue → String
  | .nilEntry => "nil entry not allowed"
  | .duplicateAddress addr =>
    "duplicate metadata address " ++ goQuote (maString addr) ++ " not allowed"
  | .notAScopeAddress addr => (validateIsScopeAddress addr).getD ""
  | .missingAccount addr =>
    "no account address associated with metadata address " ++ goQuote (maString addr)

/-- The `w` low bits of a number, most significant first (bitstream semantics
used to reason about `convertBits`). -/
def natBits : Nat → Nat → List Bool
  | 0, _ => []
  | w + 1, n => n.testBit w :: natBits w n

/-- The bitstream of a list of `w`-bit groups, most significant bit first. -/
def listBits (w : Nat) (l : List Nat) : List Bool := l.flatMap (natBits w)

end Prov

namespace Prov

/-- Successful `VerifyMetadataAddressFormat` results fall into exactly six shapes:
the hrp determines the tag byte and the total length. -/
theorem verify_ok_cases (bz : List Nat) (hrp : String)
    (h : verifyMetadataAddressFormat bz = (hrp, none)) :
    bz ≠ [] ∧
      ((hrp = PrefixScope ∧ bz.headD 0 = 0 ∧ bz.length = 17) ∨
       (hrp = PrefixSession ∧ bz.headD 0 = 1 ∧ bz.length = 33) ∨
       (hrp = PrefixRecord ∧ bz.headD 0 = 2 ∧ bz.length = 33) ∨
       (hrp = PrefixScopeSpecification ∧ bz.headD 0 = 4 ∧ bz.length = 17) ∨
       (hrp = PrefixContractSpecification ∧ bz.headD 0 = 3 ∧ bz.length = 17) ∨
       (hrp = PrefixRecordSpecification ∧ bz.headD 0 = 5 ∧ bz.length = 33)) := by
  cases bz with
  | nil => simp [verifyMetadataAddressFormat] at h
  | cons t rest =>
    refine ⟨by simp, ?_⟩
    simp only [verifyMetadataAddressFormat, List.headD_cons, List.length_cons,
      ScopeKeyPrefixBytes, SessionKeyPrefixBytes, RecordKeyPrefixBytes,
      ContractSpecificationKeyPrefixBytes, ScopeSpecificationKeyPrefixBytes,
      RecordSpecificationKeyPrefixBytes, uuidFromBytes] at h
    rw [if_neg (by omega : ¬ rest.length + 1 = 0)] at h
    by_cases h0 : t = 0
    · subst h0
      by_cases hl : rest.length = 16
      · refine Or.inl ?_
        simp [uuidFromBytes, hl, List.length_take, List.length_drop] at h
        simp_all
      · exfalso
        simp [uuidFromBytes, hl, List.length_take, List.length_drop] at h
    · by_cases h1 : t = 1
      · subst h1
        by_cases hl : rest.length = 32
        · refine Or.inr (Or.inl ?_)
          simp [uuidFromBytes, hl, List.length_take, List.length_drop, h0] at h
          simp_all
        · exfalso
          simp [uuidFromBytes, hl, List.length_take, List.length_drop, h0] at h
      · by_cases h2 : t = 2
        · subst h2
          by_cases hl : rest.length = 32
          · refine Or.inr (Or.inr (Or.inl ?_))
            simp [uuidFromBytes, hl, List.length_take, List.length_drop, h0, h1] at h
            simp_all
          · exfalso
            simp [uuidFromBytes, hl, List.length_take, List.length_drop, h0, h1] at h
        · by_cases h3 : t = 3
          · subst h3
            by_cases hl : rest.length = 16
            · refine Or.inr (Or.inr (Or.inr (Or.inr (Or.inl ?_))))
              simp [uuidFromBytes, hl, List.length_take, List.length_drop, h0, h1, h2] at h
              simp_all
            · exfalso
              simp [uuidFromBytes, hl, List.length_take, List.length_drop, h0, h1, h2] at h
          · by_cases h4 : t = 4
            · subst h4
              by_cases hl : rest.length = 16
              · refine Or.inr (Or.inr (Or.inr (Or.inl ?_)))
                simp [uuidFromBytes, hl, List.length_take, List.length_drop,
                  h0, h1, h2, h3] at h
                simp_all
              · exfalso
                simp [uuidFromBytes, hl, List.length_take, List.length_drop,
                  h0, h1, h2, h3] at h
            · by_cases h5 : t = 5
              · subst h5
                by_cases hl : rest.length = 32
                · refine Or.inr (Or.inr (Or.inr (Or.inr (Or.inr ?_))))
                  simp [uuidFromBytes, hl, List.length_take, List.length_drop,
                    h0, h1, h2, h3, h4] at h
                  simp_all
                · exfalso
                  simp [uuidFromBytes, hl, List.length_take, List.length_drop,
                    h0, h1, h2, h3, h4] at h
              · exfalso
                simp only [if_neg h0, if_neg h1, if_neg h2, if_neg h3, if_neg h4,
                  if_neg h5] at h
                simp at h

/-- Claim C1: `VerifyMetadataAddressFormat` succeeds iff the byte sequence is
non-empty, its first byte is one of the six known type tags, and its length
equals that tag's required length (17 or 33); the additional UUID slice checks
never fail once the length check has passed. -/
theorem c1_validate_succeeds_iff (bz : List Nat) :
    (verifyMetadataAddressFormat bz).2 = none ↔
      (bz ≠ [] ∧ requiredLengthForTag (bz.headD 0) = some bz.length) := by
  cases bz with
  | nil => simp [verifyMetadataAddressFormat, requiredLengthForTag]
  | cons t rest =>
    simp only [verifyMetadataAddressFormat, requiredLengthForTag, List.headD_cons,
      List.length_cons, ScopeKeyPrefixBytes, SessionKeyPrefixBytes, RecordKeyPrefixBytes,
      ContractSpecificationKeyPrefixBytes, ScopeSpecificationKeyPrefixBytes,
      RecordSpecificationKeyPrefixBytes, List.headD_cons, uuidFromBytes]
    by_cases h0 : t = 0x00 <;> by_cases h1 : t = 0x01 <;> by_cases h2 : t = 0x02 <;>
      by_cases h3 : t = 0x03 <;> by_cases h4 : t = 0x04 <;> by_cases h5 : t = 0x05 <;>
      simp_all <;>
      by_cases hl17 : rest.length + 1 = 17 <;> by_cases hl33 : rest.length + 1 = 33 <;>
      simp_all [List.length_take, List.length_drop]

/-- Claim C5: `ScopeSessionIteratorPrefix` returns `[SessionTag]` with no error on
the empty address; on every valid Scope, Session, or Record address it returns
exactly `[SessionTag] ++ scopeUUID` (bytes 1..17 of the input) with no error;
and on every valid address of any other type it returns the wrong-type error. -/
theorem c5_scope_sessions_scan :
    (scopeSessionIteratorPrefixBytes [] = .ok SessionKeyPrefixBytes) ∧
    (∀ ma hrp, verifyMetadataAddressFormat ma = (hrp, none) →
      (hrp = PrefixScope ∨ hrp = PrefixSession ∨ hrp = PrefixRecord) →
      scopeSessionIteratorPrefixBytes ma = .ok (SessionKeyPrefixBytes ++ (ma.drop 1).take 16)) ∧
    (∀ ma hrp, verifyMetadataAddressFormat ma = (hrp, none) →
      ¬ (hrp = PrefixScope ∨ hrp = PrefixSession ∨ hrp = PrefixRecord) →
      scopeSessionIteratorPrefixBytes ma =
        .err "this metadata address does not contain a scope uuid") := by
  refine ⟨by decide, ?_, ?_⟩
  · intro ma hrp h hmem
    obtain ⟨hne, hcases⟩ := verify_ok_cases ma hrp h
    cases ma with
    | nil => exact absurd rfl hne
    | cons t rest =>
      have : (t = 0 ∨ t = 1 ∨ t = 2) ∧ 17 ≤ rest.length + 1 := by
        rcases hcases with ⟨hh, ht, hl⟩ | ⟨hh, ht, hl⟩ | ⟨hh, ht, hl⟩ | ⟨hh, ht, hl⟩ |
          ⟨hh, ht, hl⟩ | ⟨hh, ht, hl⟩ <;> subst hh <;> simp_all [PrefixScope, PrefixSession,
          PrefixRecord, PrefixScopeSpecification, PrefixContractSpecification,
          PrefixRecordSpecification]
      obtain ⟨ht, hl⟩ := this
      simp only [scopeSessionIteratorPrefixBytes, isTypeOneOf, goSlice, List.length_cons]
      rcases ht with h' | h' | h' <;> subst h' <;>
        simp [ScopeKeyPrefixBytes, SessionKeyPrefixBytes, RecordKeyPrefixBytes, hl]
  · intro ma hrp h hmem
    obtain ⟨hne, hcases⟩ := verify_ok_cases ma hrp h
    cases ma with
    | nil => exact absurd rfl hne
    | cons t rest =>
      have ht : t = 3 ∨ t = 4 ∨ t = 5 := by
        rcases hcases with ⟨hh, ht, hl⟩ | ⟨hh, ht, hl⟩ | ⟨hh, ht, hl⟩ | ⟨hh, ht, hl⟩ |
          ⟨hh, ht, hl⟩ | ⟨hh, ht, hl⟩ <;> subst hh <;> simp_all
      simp only [scopeSessionIteratorPrefixBytes, isTypeOneOf]
      rcases ht with h' | h' | h' <;> subst h' <;>
        simp [ScopeKeyPrefixBytes, SessionKeyPrefixBytes, RecordKeyPrefixBytes]

/-- Witness for C5: a concrete valid Scope address yields `[SessionTag] ++ scopeUUID`. -/
theorem c5_scope_sessions_scan_witness :
    scopeSessionIteratorPrefixBytes (0 :: List.replicate 16 7) =
      .ok (SessionKeyPrefixBytes ++ List.replicate 16 7) := by
  have h := c5_scope_sessions_scan.2.1 (0 :: List.replicate 16 7) PrefixScope
    (by decide) (Or.inl rfl)
  simpa using h

/-- Claim C6: the three scan-prefix functions check only the tag byte before
slicing bytes 1..17, so a non-empty input with a recognized tag but total length
below 17 makes the slice go out of range and the function panic. -/
theorem c6_short_recognized_input_panics (bz : List Nat) (h1 : bz ≠ []) (h2 : bz.length < 17) :
    (isTypeOneOf bz [ScopeKeyPrefixBytes, SessionKeyPrefixBytes, RecordKeyPrefixBytes] = true →
      scopeSessionIteratorPrefixBytes bz = .panic "slice bounds out of range" ∧
      scopeRecordIteratorPrefixBytes bz = .panic "slice bounds out of range") ∧
    (isTypeOneOf bz [ContractSpecificationKeyPrefixBytes, RecordSpecificationKeyPrefixBytes]
        = true →
      contractSpecRecordSpecIteratorPrefixBytes bz = .panic "slice bounds out of range") := by
  have hlen : ¬ bz.length < 1 := by
    cases bz with
    | nil => exact absurd rfl h1
    | cons t rest => simp
  have hs : ¬ 17 ≤ bz.length := by omega
  constructor
  · intro hty
    constructor <;>
      simp [scopeSessionIteratorPrefixBytes, scopeRecordIteratorPrefixBytes, hlen, hty,
        goSlice, hs]
  · intro hty
    simp [contractSpecRecordSpecIteratorPrefixBytes, hlen, hty, goSlice, hs]

/-- Witness for C6: the 2-byte Scope-tagged input `[0, 0]` panics. -/
theorem c6_short_recognized_input_panics_witness :
    scopeSessionIteratorPrefixBytes [0, 0] = .panic "slice bounds out of range" :=
  ((c6_short_recognized_input_panics [0, 0] (by decide) (by decide)).1 (by decide)).1

/-- Claim C7: record-address encoding normalizes the name (trim + lower-case)
before hashing, so `"Foo"`, `" foo "` and `"FOO"` produce byte-identical
addresses for every scope UUID. -/
theorem c7_record_name_normalization (u : List Nat) :
    recordMetadataAddress u "Foo" = recordMetadataAddress u " foo " ∧
    recordMetadataAddress u " foo " = recordMetadataAddress u "FOO" := by
  have h1 : goToLower (goTrimSpace "Foo") = "foo" := by decide
  have h2 : goToLower (goTrimSpace " foo ") = "foo" := by decide
  have h3 : goToLower (goTrimSpace "FOO") = "foo" := by decide
  constructor <;> simp only [recordMetadataAddress, h1, h2, h3]

/-- Claim C4, counterexample: on a valid ContractSpecification address,
`AsRecordSpecAddress` with an empty name does not return an error result — the
encoding helper panics (a process abort). -/
theorem c4_counterexample :
    asRecordSpecAddress (contractSpecMetadataAddress (List.replicate 16 7)) "" =
      GoRes.panic "missing name value for record spec metadata address" := by decide

/-- Claim C4 as amended: on every valid ContractSpecification or
RecordSpecification address, `AsRecordSpecAddress` with an empty name panics in
`RecordSpecMetadataAddress` (a process abort), instead of returning the typed
failure the spec promises. -/
theorem c4_empty_name_panics (ma : List Nat) (hrp : String)
    (h : verifyMetadataAddressFormat ma = (hrp, none))
    (hh : hrp = PrefixContractSpecification ∨ hrp = PrefixRecordSpecification) :
    asRecordSpecAddress ma "" =
      GoRes.panic "missing name value for record spec metadata address" := by
  obtain ⟨hne, hcases⟩ := verify_ok_cases ma hrp h
  cases ma with
  | nil => exact absurd rfl hne
  | cons t rest =>
    have ht : (t = 3 ∨ t = 5) ∧ 16 ≤ rest.length := by
      rcases hcases with ⟨hh', ht', hl⟩ | ⟨hh', ht', hl⟩ | ⟨hh', ht', hl⟩ | ⟨hh', ht', hl⟩ |
        ⟨hh', ht', hl⟩ | ⟨hh', ht', hl⟩ <;> subst hh' <;>
        simp_all [PrefixScope, PrefixSession, PrefixRecord, PrefixScopeSpecification,
          PrefixContractSpecification, PrefixRecordSpecification]
    obtain ⟨ht, hl⟩ := ht
    have hu : ((t :: rest).drop 1).take 16 = rest.take 16 := by simp
    have hlen : (rest.take 16).length = 16 := by simp [List.length_take]; omega
    have hlt : ¬ rest.length + 1 < 17 := by omega
    rcases ht with h' | h' <;> subst h' <;>
      simp [asRecordSpecAddress, contractSpecUUIDOf, isTypeOneOf, primaryUUIDOf,
        ContractSpecificationKeyPrefixBytes, RecordSpecificationKeyPrefixBytes,
        uuidFromBytes, hlen, hlt, recordSpecMetadataAddress,
        show goToLower (goTrimSpace "") = "" from by decide]

/-- Witness for C4's amended theorem: a concrete ContractSpecification address. -/
theorem c4_empty_name_panics_witness :
    asRecordSpecAddress (3 :: List.replicate 16 9) "" =
      GoRes.panic "missing name value for record spec metadata address" :=
  c4_empty_name_panics (3 :: List.replicate 16 9) PrefixContractSpecification
    (by decide) (Or.inl rfl)

/-- Claim C9: `GetDetails` is total, and on an 18-byte Scope-tagged sequence
(rejected by `Validate`) it reports exactly the one stray byte as excess, in
raw, hex and base64 forms. -/
theorem c9_excess_byte_detection (u : List Nat) (b : Nat) (hu : u.length = 16) :
    (verifyMetadataAddressFormat (0 :: u ++ [b])).2 ≠ none ∧
    (getDetails (0 :: u ++ [b])).AddressExcess = [b] ∧
    (getDetails (0 :: u ++ [b])).ExcessHex = hexEncodeList [b] ∧
    (getDetails (0 :: u ++ [b])).ExcessBase64 = base64Encode [b] := by
  have hdrop : (0 :: u ++ [b]).drop 17 = [b] := by
    have h2 : (u ++ [b]).drop 16 = [b] := by
      rw [← hu]; exact List.drop_left u [b]
    simpa using h2
  have htake : (u ++ [b]).take 16 = u := by
    rw [← hu]; exact List.take_left u [b]
  have hver2 : (verifyMetadataAddressFormat (0 :: u ++ [b])).2 ≠ none := by
    simp [verifyMetadataAddressFormat, ScopeKeyPrefixBytes, SessionKeyPrefixBytes,
      RecordKeyPrefixBytes, ScopeSpecificationKeyPrefixBytes,
      ContractSpecificationKeyPrefixBytes, RecordSpecificationKeyPrefixBytes, hu]
  have hver1 : (verifyMetadataAddressFormat (0 :: u ++ [b])).1 = PrefixScope := by
    simp [verifyMetadataAddressFormat, ScopeKeyPrefixBytes, SessionKeyPrefixBytes,
      RecordKeyPrefixBytes, ScopeSpecificationKeyPrefixBytes,
      ContractSpecificationKeyPrefixBytes, RecordSpecificationKeyPrefixBytes, hu]
  have hpre : prefixOf (0 :: u ++ [b]) = (PrefixScope, none) := by
    rw [prefixOf]
    cases hv : verifyMetadataAddressFormat (0 :: u ++ [b]) with
    | mk p e =>
      have hp : p = PrefixScope := by rw [← hver1, hv]
      subst hp
      have hne : ¬ (PrefixScope.length = 0) := by decide
      simp [hne]
  have hisScope : isScopeAddress (0 :: u ++ [b]) = false := by
    rw [isScopeAddress]
    cases hv : verifyMetadataAddressFormat (0 :: u ++ [b]) with
    | mk p e =>
      cases e with
      | none => exact absurd (by rw [hv] : (verifyMetadataAddressFormat
          (0 :: u ++ [b])).2 = none) hver2
      | some e' => rfl
  have hisCS : isContractSpecificationAddress (0 :: u ++ [b]) = false := by
    rw [isContractSpecificationAddress]
    cases hv : verifyMetadataAddressFormat (0 :: u ++ [b]) with
    | mk p e =>
      cases e with
      | none => exact absurd (by rw [hv] : (verifyMetadataAddressFormat
          (0 :: u ++ [b])).2 = none) hver2
      | some e' => rfl
  have hasScope : asScopeAddress (0 :: u ++ [b]) = .ok (0 :: u) := by
    have hlt : ¬ (0 :: u ++ [b]).length < 17 := by simp [hu]
    simp [asScopeAddress, scopeUUIDOf, isTypeOneOf, ScopeKeyPrefixBytes,
      SessionKeyPrefixBytes, RecordKeyPrefixBytes, primaryUUIDOf, uuidFromBytes,
      ScopeSpecificationKeyPrefixBytes, ContractSpecificationKeyPrefixBytes,
      RecordSpecificationKeyPrefixBytes, hlt, htake, hu, scopeMetadataAddress]
  refine ⟨hver2, ?_⟩
  obtain ⟨e2, hsec⟩ : ∃ e, secondaryUUIDOf (0 :: u ++ [b]) = .error e := by
    cases hx : secondaryUUIDOf (0 :: u ++ [b]) with
    | ok v =>
      exfalso
      revert hx
      simp [secondaryUUIDOf, isTypeOneOf, SessionKeyPrefixBytes, hu]
    | error e => exact ⟨e, rfl⟩
  obtain ⟨e3, hname⟩ : ∃ e, (nameHashOf (0 :: u ++ [b])).2 = some e := by
    cases hx : (nameHashOf (0 :: u ++ [b])).2 with
    | none =>
      exfalso
      revert hx
      simp [nameHashOf, isTypeOneOf, RecordKeyPrefixBytes,
        RecordSpecificationKeyPrefixBytes, hu]
    | some e => exact ⟨e, rfl⟩
  obtain ⟨e4, hcs⟩ : ∃ e, asContractSpecAddress (0 :: u ++ [b]) = .error e := by
    cases hx : asContractSpecAddress (0 :: u ++ [b]) with
    | ok v =>
      exfalso
      revert hx
      simp [asContractSpecAddress, contractSpecUUIDOf, isTypeOneOf,
        ContractSpecificationKeyPrefixBytes, RecordSpecificationKeyPrefixBytes]
    | error e => exact ⟨e, rfl⟩
  rw [getDetails]
  simp only [hpre, hsec, hname, hisScope, hisCS, hasScope, hcs, hdrop]
  simp [hu]

/-- Witness for C9: the stray byte `171` after a concrete scope UUID is the excess. -/
theorem c9_excess_byte_detection_witness :
    (getDetails (0 :: List.replicate 16 7 ++ [171])).AddressExcess = [171] :=
  (c9_excess_byte_detection (List.replicate 16 7) 171 (by decide)).2.1

/-- `GetDetails` sets the prefix string from `Prefix()`, with the hex fallback
exactly when `Prefix()` reports an error. -/
theorem getDetails_PrefixStr (bz : List Nat) :
    (getDetails bz).PrefixStr =
      if 1 ≤ bz.length then
        match (prefixOf bz).2 with
        | some _ => hexEncodeList (bz.take 1)
        | none => (prefixOf bz).1
      else "" := by
  cases hsec : secondaryUUIDOf bz <;>
    cases hname : (nameHashOf bz).2 <;>
      cases hasS : asScopeAddress bz <;>
        cases hasC : asContractSpecAddress bz <;>
          (rw [getDetails]
           simp only [hsec, hname, hasS, hasC]
           simp [apply_ite MetadataAddressDetails.PrefixStr])

/-- Claim C10, counterexample: `Validate` fails on the 2-byte Scope-tagged
input `[0, 0]`, yet `GetDetails` reports the prefix string `"scope"`, not the
hex encoding `"00"` of the tag byte. -/
theorem c10_counterexample :
    (verifyMetadataAddressFormat [0, 0]).2 ≠ none ∧
    (getDetails [0, 0]).PrefixStr = PrefixScope ∧
    (getDetails [0, 0]).PrefixStr ≠ hexEncodeList [0] := by decide

/-- Claim C10 as amended: for every non-empty byte sequence, `GetDetails`
reports the prefix string as the hex encoding of the tag byte exactly when the
format check recovers an empty hrp (an unknown tag byte); when the hrp is
non-empty — even though `Validate` fails because the length is wrong —
`Prefix()` drops the error and `GetDetails` reports that hrp. -/
theorem c10_details_hrp_or_hex (bz : List Nat) (h : bz ≠ []) :
    (getDetails bz).PrefixStr =
      if (verifyMetadataAddressFormat bz).1 = "" then hexEncodeList (bz.take 1)
      else (verifyMetadataAddressFormat bz).1 := by
  have h1 : 1 ≤ bz.length := by
    cases bz with
    | nil => exact absurd rfl h
    | cons t rest => simp
  rw [getDetails_PrefixStr, if_pos h1]
  simp only [prefixOf]
  by_cases hk : (verifyMetadataAddressFormat bz).1 = ""
  · have h2 : (verifyMetadataAddressFormat bz).2 ≠ none := by
      intro hnone
      have hpair : verifyMetadataAddressFormat bz = ((verifyMetadataAddressFormat bz).1, none) := by
        rw [← hnone]
      obtain ⟨-, hcases⟩ := verify_ok_cases bz (verifyMetadataAddressFormat bz).1 hpair
      rcases hcases with ⟨hh, -⟩ | ⟨hh, -⟩ | ⟨hh, -⟩ | ⟨hh, -⟩ | ⟨hh, -⟩ | ⟨hh, -⟩ <;>
        rw [hh] at hk <;> exact absurd hk (by decide)
    rw [if_pos (by rw [hk]; rfl : (verifyMetadataAddressFormat bz).1.length = 0)]
    cases hsnd : (verifyMetadataAddressFormat bz).2 with
    | none => exact absurd hsnd h2
    | some e => simp [hk]
  · have hlen : ¬ (verifyMetadataAddressFormat bz).1.length = 0 := by
      intro h0
      apply hk
      cases hs : (verifyMetadataAddressFormat bz).1 with
      | mk data =>
        rw [hs] at h0
        cases data with
        | nil => rfl
        | cons c cs => simp [String.length] at h0
    rw [if_neg hlen]
    simp [hk]

/-- Witness for C10's amended theorem: on `[0, 0]` the reported prefix is the
hrp `"scope"` recovered from the known tag byte. -/
theorem c10_details_hrp_or_hex_witness :
    (getDetails [0, 0]).PrefixStr =
      (if (verifyMetadataAddressFormat [0, 0]).1 = "" then hexEncodeList ([0, 0].take 1)
       else (verifyMetadataAddressFormat [0, 0]).1) :=
  c10_details_hrp_or_hex [0, 0] (by decide)

/-- `ValidateIsScopeAddress` succeeds exactly when `IsScopeAddress` holds. -/
theorem validateIsScope_none_iff (ma : List Nat) :
    validateIsScopeAddress ma = none ↔ isScopeAddress ma = true := by
  simp only [validateIsScopeAddress, verifyMetadataAddressHasType, isScopeAddress]
  cases hv : verifyMetadataAddressFormat ma with
  | mk p e =>
    cases e with
    | none => by_cases hp : p = PrefixScope <;> simp [hp]
    | some e' => simp

/-- The loop of `ValidateForScopes` agrees with the spec-side model whenever the
`int8` map agrees with the model's seen-list. -/
theorem validateForScopesLoop_eq (links : List (Option AccMDLink)) :
    ∀ (seenF : List Nat → Nat) (seenL : List (List Nat)),
      (∀ k, seenF k = if k ∈ seenL then 1 else 0) →
      validateForScopesLoop links seenF =
        (validateForScopesModel links seenL).map renderScopeLinkIssue := by
  induction links with
  | nil =>
    intro seenF seenL hinv
    simp [validateForScopesLoop, validateForScopesModel]
  | cons hd tl ih =>
    intro seenF seenL hinv
    cases hd with
    | none => simp [validateForScopesLoop, validateForScopesModel, renderScopeLinkIssue]
    | some l =>
      by_cases hmem : l.MDAddr ∈ seenL
      · have h1 : seenF l.MDAddr = 1 := by rw [hinv]; simp [hmem]
        simp [validateForScopesLoop, validateForScopesModel, firstIssueForLink, hmem, h1,
          renderScopeLinkIssue]
      · have h0 : seenF l.MDAddr = 0 := by rw [hinv]; simp [hmem]
        cases hval : validateIsScopeAddress l.MDAddr with
        | some e =>
          have hscope : isScopeAddress l.MDAddr = false := by
            cases hs : isScopeAddress l.MDAddr
            · rfl
            · rw [(validateIsScope_none_iff l.MDAddr).mpr hs] at hval
              exact Option.noConfusion hval
          simp [validateForScopesLoop, validateForScopesModel, firstIssueForLink, hmem, h0,
            hval, hscope, renderScopeLinkIssue]
        | none =>
          have hscope : isScopeAddress l.MDAddr = true :=
            (validateIsScope_none_iff l.MDAddr).mp hval
          by_cases hacc : l.AccAddr = []
          · simp [validateForScopesLoop, validateForScopesModel, firstIssueForLink, hmem,
              h0, hval, hscope, hacc, renderScopeLinkIssue]
          · have hacclen : ¬ l.AccAddr.length = 0 := by
              simpa [List.length_eq_zero] using hacc
            have hinv' : ∀ k, (fun k => if k = l.MDAddr then 1 else seenF k) k =
                if k ∈ (l.MDAddr :: seenL) then 1 else 0 := by
              intro k
              by_cases hk : k = l.MDAddr <;> simp [hk, hinv]
            simp only [validateForScopesLoop, validateForScopesModel, firstIssueForLink,
              hmem, h0, hval, hscope, hacclen, if_neg, if_pos, reduceIte, if_false,
              Bool.not_true, ite_false, ite_true]
            rw [ih _ _ hinv']
            simp [hmem, hscope, hacc]

/-- Claim C8: `ValidateForScopes` behaves exactly as the spec-side model:
valid on the empty list, and otherwise it reports — for the first failing entry
in order — the first applicable error among nil entry, duplicate address
(seen-set keyed by raw bytes), not-a-scope-address (first sighting only), and
missing account, rendered as the Go error message. -/
theorem c8_validate_for_scopes (a : List (Option AccMDLink)) :
    validateForScopes a = (validateForScopesModel a []).map renderScopeLinkIssue := by
  rw [validateForScopes]
  cases a with
  | nil => simp [validateForScopesModel]
  | cons hd tl =>
    rw [if_neg (by simp)]
    exact validateForScopesLoop_eq (hd :: tl) (fun _ => 0) [] (by intro k; simp)

/-- `natBits` produces exactly `w` bits. -/
theorem natBits_length (w n : Nat) : (natBits w n).length = w := by
  induction w generalizing n with
  | zero => rfl
  | succ k ih => simp [natBits, ih]

/-- `natBits` only looks at the low `w` bits. -/
theorem natBits_congr (w : Nat) (a b : Nat) (h : ∀ i, i < w → a.testBit i = b.testBit i) :
    natBits w a = natBits w b := by
  induction w with
  | zero => rfl
  | succ k ih =>
    rw [natBits, natBits, h k (by omega), ih (fun i hi => h i (by omega))]

/-- Splitting a value into a high and a low part splits its bits. -/
theorem natBits_append (w1 w2 hi lo : Nat) (hlo : lo < 2 ^ w2) :
    natBits (w1 + w2) (2 ^ w2 * hi + lo) = natBits w1 hi ++ natBits w2 lo := by
  induction w1 with
  | zero =>
    simp only [Nat.zero_add, List.nil_append, natBits]
    exact natBits_congr w2 _ lo (fun i hi' => by
      rw [Nat.testBit_mul_pow_two_add _ hlo, if_pos hi'])
  | succ k ih =>
    have he : k + 1 + w2 = (k + w2) + 1 := by omega
    rw [he, natBits, natBits, ih]
    have hbit : (2 ^ w2 * hi + lo).testBit (k + w2) = hi.testBit k := by
      rw [Nat.testBit_mul_pow_two_add _ hlo, if_neg (by omega)]
      congr 1
      omega
    rw [hbit]
    rfl

/-- The bits of zero are all `false`. -/
theorem natBits_zero (w : Nat) : natBits w 0 = List.replicate w false := by
  induction w with
  | zero => rfl
  | succ k ih => simp [natBits, ih, List.replicate_succ, Nat.zero_testBit]

/-- Equal bit lists mean equal low bits. -/
theorem natBits_testBit_eq (w a b : Nat) (h : natBits w a = natBits w b) :
    ∀ i, i < w → a.testBit i = b.testBit i := by
  induction w with
  | zero => omega
  | succ k ih =>
    intro i hi
    rw [natBits, natBits] at h
    rcases List.cons.injEq _ _ _ _ ▸ h with ⟨hhd, htl⟩
    by_cases hik : i = k
    · subst hik; exact hhd
    · exact ih htl i (by omega)

/-- `natBits` is injective on values below `2 ^ w`. -/
theorem natBits_inj (w a b : Nat) (ha : a < 2 ^ w) (hb : b < 2 ^ w)
    (h : natBits w a = natBits w b) : a = b := by
  apply Nat.eq_of_testBit_eq
  intro i
  by_cases hi : i < w
  · exact natBits_testBit_eq w a b h i hi
  · rw [Nat.testBit_lt_two_pow, Nat.testBit_lt_two_pow]
    · exact Nat.lt_of_lt_of_le hb (Nat.pow_le_pow_right (by omega) (by omega))
    · exact Nat.lt_of_lt_of_le ha (Nat.pow_le_pow_right (by omega) (by omega))

/-- `listBits` on a cons. -/
theorem listBits_cons (w x : Nat) (l : List Nat) :
    listBits w (x :: l) = natBits w x ++ listBits w l := by
  simp [listBits]

/-- `listBits` distributes over append. -/
theorem listBits_append (w : Nat) (l1 l2 : List Nat) :
    listBits w (l1 ++ l2) = listBits w l1 ++ listBits w l2 := by
  simp [listBits]

/-- Total bit count of a group list. -/
theorem listBits_length (w : Nat) (l : List Nat) : (listBits w l).length = w * l.length := by
  induction l with
  | nil => simp [listBits]
  | cons x xs ih =>
    rw [listBits_cons, List.length_append, natBits_length, ih, List.length_cons]
    ring

/-- `listBits` is injective on equal-length lists of `w`-bit values. -/
theorem listBits_inj (w : Nat) (l1 l2 : List Nat) (h1 : ∀ v ∈ l1, v < 2 ^ w)
    (h2 : ∀ v ∈ l2, v < 2 ^ w) (hlen : l1.length = l2.length)
    (h : listBits w l1 = listBits w l2) : l1 = l2 := by
  induction l1 generalizing l2 with
  | nil =>
    cases l2 with
    | nil => rfl
    | cons b bs => simp at hlen
  | cons a as ih =>
    cases l2 with
    | nil => simp at hlen
    | cons b bs =>
      rw [listBits_cons, listBits_cons] at h
      obtain ⟨hhd, htl⟩ := List.append_inj h (by rw [natBits_length, natBits_length])
      have ha := natBits_inj w a b (h1 a (by simp)) (h2 b (by simp)) hhd
      subst ha
      rw [ih bs (fun v hv => h1 v (by simp [hv])) (fun v hv => h2 v (by simp [hv]))
        (by simpa using hlen) htl]

/-- One unfolding of the `convertBits` inner loop in its progressing case. -/
theorem convInner_step (toBits rem b fb nb : Nat) (reg : List Nat) (h0 : rem ≠ 0)
    (hte : min rem (toBits - fb) ≠ 0) :
    convInner toBits rem b fb nb reg =
      (if fb + min rem (toBits - fb) = toBits then
        convInner toBits (rem - min rem (toBits - fb)) ((b <<< min rem (toBits - fb)) % 256) 0 0
          (reg ++ [((nb <<< min rem (toBits - fb)) |||
            (b >>> (8 - min rem (toBits - fb)))) % 256])
      else
        convInner toBits (rem - min rem (toBits - fb)) ((b <<< min rem (toBits - fb)) % 256)
          (fb + min rem (toBits - fb))
          (((nb <<< min rem (toBits - fb)) ||| (b >>> (8 - min rem (toBits - fb)))) % 256)
          reg) := by
  conv_lhs => rw [convInner.eq_def]
  rw [dif_neg h0]
  dsimp only
  rw [dif_neg hte]

/-- Full behaviour of the `convertBits` inner loop: it moves the pending top
bits of the current input value into the output stream, preserving the overall
bitstream and the state invariants. -/
theorem convInner_spec (toBits : Nat) (ht1 : 1 ≤ toBits) (ht8 : toBits ≤ 8) :
    ∀ rem pend fb nb (reg : List Nat),
      rem ≤ 8 → pend < 2 ^ rem → fb < toBits → nb < 2 ^ fb →
      (∀ x ∈ reg, x < 2 ^ toBits) →
      ∃ reg2 fb2 nb2,
        convInner toBits rem ((pend <<< (8 - rem)) % 256) fb nb reg = (reg2, fb2, nb2) ∧
        fb2 < toBits ∧ nb2 < 2 ^ fb2 ∧ (∀ x ∈ reg2, x < 2 ^ toBits) ∧
        listBits toBits reg2 ++ natBits fb2 nb2 =
          listBits toBits reg ++ natBits fb nb ++ natBits rem pend := by
  intro rem
  induction rem using Nat.strong_induction_on with
  | _ rem ih =>
    intro pend fb nb reg hrem hpend hfb hnb hreg
    by_cases h0 : rem = 0
    · subst h0
      have hp0 : pend = 0 := by omega
      subst hp0
      refine ⟨reg, fb, nb, ?_, hfb, hnb, hreg, by simp [natBits]⟩
      rw [convInner.eq_def]
      simp
    · have hte0 : min rem (toBits - fb) ≠ 0 := by omega
      rw [convInner_step toBits rem _ fb nb reg h0 hte0]
      set te := min rem (toBits - fb) with hte_def
      have hte1 : 1 ≤ te := by omega
      have hte_rem : te ≤ rem := by omega
      have hte_fb : fb + te ≤ toBits := by omega
      set rem' := rem - te with hrem'_def
      have hrem'_lt : rem' < rem := by omega
      have hsplit : rem = te + rem' := by omega
      set hi := pend / 2 ^ rem' with hhi_def
      set lo := pend % 2 ^ rem' with hlo_def
      have hlo_lt : lo < 2 ^ rem' := Nat.mod_lt _ (Nat.two_pow_pos rem')
      have hhi_lt : hi < 2 ^ te := by
        rw [hhi_def]
        apply Nat.div_lt_of_lt_mul
        calc pend < 2 ^ rem := hpend
          _ = 2 ^ rem' * 2 ^ te := by rw [← Nat.pow_add]; congr 1; omega
      have hpend_split : pend = 2 ^ rem' * hi + lo := (Nat.div_add_mod pend (2 ^ rem')).symm
      have hb_lt : pend <<< (8 - rem) < 256 := by
        rw [Nat.shiftLeft_eq]
        calc pend * 2 ^ (8 - rem) < 2 ^ rem * 2 ^ (8 - rem) :=
              Nat.mul_lt_mul_of_pos_right hpend (Nat.two_pow_pos _)
          _ = 2 ^ 8 := by rw [← Nat.pow_add]; congr 1; omega
          _ = 256 := by norm_num
      have hbmod : (pend <<< (8 - rem)) % 256 = pend <<< (8 - rem) := Nat.mod_eq_of_lt hb_lt
      have hK2a : (pend <<< (8 - rem)) >>> (8 - te) = hi := by
        rw [Nat.shiftLeft_eq, Nat.shiftRight_eq_div_pow]
        have hpw : (2:Nat) ^ (8 - te) = 2 ^ (8 - rem) * 2 ^ rem' := by
          rw [← Nat.pow_add]; congr 1; omega
        rw [hpw, Nat.mul_comm pend (2 ^ (8 - rem)), Nat.mul_div_mul_left _ _ (Nat.two_pow_pos _)]
      have hnb2_big : 2 ^ te * nb + hi < 2 ^ (fb + te) := by
        calc 2 ^ te * nb + hi < 2 ^ te * nb + 2 ^ te := by omega
          _ = 2 ^ te * (nb + 1) := by ring
          _ ≤ 2 ^ te * 2 ^ fb := Nat.mul_le_mul_left _ (by omega)
          _ = 2 ^ (fb + te) := by rw [← Nat.pow_add]; congr 1; omega
      have hnb2_256 : 2 ^ te * nb + hi < 256 := by
        calc 2 ^ te * nb + hi < 2 ^ (fb + te) := hnb2_big
          _ ≤ 2 ^ 8 := Nat.pow_le_pow_right (by omega) (by omega)
          _ = 256 := by norm_num
      have hnb2_eq : ((nb <<< te) ||| (((pend <<< (8 - rem)) % 256) >>> (8 - te))) % 256 =
          2 ^ te * nb + hi := by
        rw [hbmod, hK2a, Nat.shiftLeft_eq, Nat.mul_comm nb (2 ^ te),
          ← Nat.mul_add_lt_is_or hhi_lt]
        exact Nat.mod_eq_of_lt hnb2_256
      have hK3 : (((pend <<< (8 - rem)) % 256) <<< te) % 256 = (lo <<< (8 - rem')) % 256 := by
        rw [hbmod, Nat.shiftLeft_eq, Nat.shiftLeft_eq, Nat.mul_assoc, ← Nat.pow_add,
          Nat.shiftLeft_eq]
        have h8 : 8 - rem + te = 8 - rem' := by omega
        rw [h8]
        conv_lhs => rw [hpend_split]
        rw [Nat.add_mul, Nat.mul_assoc]
        have hmul : 2 ^ rem' * (hi * 2 ^ (8 - rem')) = hi * 256 := by
          have hswap : 2 ^ rem' * (hi * 2 ^ (8 - rem')) = hi * (2 ^ rem' * 2 ^ (8 - rem')) := by
            ring
          rw [hswap, ← Nat.pow_add]
          have h8b : rem' + (8 - rem') = 8 := by omega
          rw [h8b]
        rw [hmul, Nat.mul_comm hi 256, Nat.mul_add_mod]
      have hbits_nb2 : natBits (fb + te) (2 ^ te * nb + hi) =
          natBits fb nb ++ natBits te hi := natBits_append fb te nb hi hhi_lt
      have hbits_pend : natBits rem pend = natBits te hi ++ natBits rem' lo := by
        conv_lhs => rw [hsplit, hpend_split]
        exact natBits_append te rem' hi lo hlo_lt
      by_cases hfull : fb + te = toBits
      · rw [if_pos hfull]
        have harg : (((pend <<< (8 - rem)) % 256) <<< te) % 256 = (lo <<< (8 - rem')) % 256 :=
          hK3
        rw [harg, hnb2_eq]
        obtain ⟨reg2, fb2, nb2, heq, p1, p2, p3, p4⟩ :=
          ih rem' hrem'_lt lo 0 0 (reg ++ [2 ^ te * nb + hi]) (by omega) hlo_lt
            (by omega) (by simp)
            (by
              intro x hx
              rcases List.mem_append.mp hx with hx | hx
              · exact hreg x hx
              · simp at hx
                subst hx
                calc 2 ^ te * nb + hi < 2 ^ (fb + te) := hnb2_big
                  _ = 2 ^ toBits := by rw [hfull])
        refine ⟨reg2, fb2, nb2, heq, p1, p2, p3, ?_⟩
        rw [p4, listBits_append, natBits_zero]
        simp only [listBits, List.flatMap_cons, List.flatMap_nil, List.append_nil,
          List.replicate_zero]
        rw [← hfull, hbits_nb2, hbits_pend]
        simp [List.append_assoc]
      · rw [if_neg hfull]
        have hfb2 : fb + te < toBits := by omega
        rw [hK3, hnb2_eq]
        obtain ⟨reg2, fb2, nb2, heq, p1, p2, p3, p4⟩ :=
          ih rem' hrem'_lt lo (fb + te) (2 ^ te * nb + hi) reg (by omega) hlo_lt
            hfb2 hnb2_big hreg
        refine ⟨reg2, fb2, nb2, heq, p1, p2, p3, ?_⟩
        rw [p4, hbits_nb2, hbits_pend]
        simp [List.append_assoc]

/-- The fold in `convertBits` preserves the bitstream and the state invariants. -/
theorem convertBits_fold_spec (fromBits toBits : Nat) (hf8 : fromBits ≤ 8)
    (ht1 : 1 ≤ toBits) (ht8 : toBits ≤ 8) :
    ∀ (data reg : List Nat) (fb nb : Nat),
      (∀ v ∈ data, v < 2 ^ fromBits) → fb < toBits → nb < 2 ^ fb →
      (∀ x ∈ reg, x < 2 ^ toBits) →
      ∃ reg2 fb2 nb2,
        data.foldl
          (fun (st : List Nat × Nat × Nat) v =>
            convInner toBits fromBits ((v <<< (8 - fromBits)) % 256) st.2.1 st.2.2 st.1)
          (reg, fb, nb) = (reg2, fb2, nb2) ∧
        fb2 < toBits ∧ nb2 < 2 ^ fb2 ∧ (∀ x ∈ reg2, x < 2 ^ toBits) ∧
        listBits toBits reg2 ++ natBits fb2 nb2 =
          listBits toBits reg ++ natBits fb nb ++ listBits fromBits data := by
  intro data
  induction data with
  | nil =>
    intro reg fb nb _ hfb hnb hreg
    exact ⟨reg, fb, nb, rfl, hfb, hnb, hreg, by simp [listBits]⟩
  | cons v vs ih =>
    intro reg fb nb hdata hfb hnb hreg
    obtain ⟨reg1, fb1, nb1, heq1, q1, q2, q3, q4⟩ :=
      convInner_spec toBits ht1 ht8 fromBits v fb nb reg hf8 (hdata v (by simp)) hfb hnb hreg
    obtain ⟨reg2, fb2, nb2, heq2, p1, p2, p3, p4⟩ :=
      ih reg1 fb1 nb1 (fun x hx => hdata x (by simp [hx])) q1 q2 q3
    refine ⟨reg2, fb2, nb2, ?_, p1, p2, p3, ?_⟩
    · rw [List.foldl_cons]
      dsimp only
      rw [heq1]
      exact heq2
    · rw [p4, q4, listBits_cons]
      simp [List.append_assoc]

/-- `ConvertBits` from 8-bit to 5-bit groups with padding: always succeeds, the
output values are below 32, and the output bitstream is the input bitstream
followed by at most 4 zero padding bits. -/
theorem convertBits_8_5 (data : List Nat) (hdata : ∀ v ∈ data, v < 256) :
    ∃ out k, convertBits data 8 5 true = .ok out ∧ (∀ v ∈ out, v < 32) ∧ k ≤ 4 ∧
      5 * out.length = 8 * data.length + k ∧
      listBits 5 out = listBits 8 data ++ List.replicate k false := by
  obtain ⟨reg2, fb2, nb2, heq, p1, p2, p3, p4⟩ :=
    convertBits_fold_spec 8 5 (by norm_num) (by norm_num) (by norm_num)
      data [] 0 0 (by simpa using hdata) (by norm_num) (by norm_num) (by simp)
  have hlen : 5 * reg2.length + fb2 = 8 * data.length := by
    have hl := congrArg List.length p4
    simp only [List.length_append, listBits_length, natBits_length, List.length_nil] at hl
    omega
  rw [convertBits, if_neg (by norm_num)]
  dsimp only
  rw [heq]
  dsimp only
  by_cases hfb0 : fb2 = 0
  · subst hfb0
    have hnb0 : nb2 = 0 := by omega
    subst hnb0
    rw [if_neg (by simp)]
    rw [if_neg (by simp)]
    refine ⟨reg2, 0, rfl, fun v hv => p3 v hv, by norm_num, by omega, ?_⟩
    have hp4 := p4
    rw [natBits] at hp4
    simpa [listBits] using hp4
  · rw [if_pos ⟨rfl, by omega⟩]
    have hpadlt : nb2 <<< (5 - fb2) < 256 := by
      rw [Nat.shiftLeft_eq]
      calc nb2 * 2 ^ (5 - fb2) < 2 ^ fb2 * 2 ^ (5 - fb2) :=
            Nat.mul_lt_mul_of_pos_right p2 (Nat.two_pow_pos _)
        _ = 2 ^ (fb2 + (5 - fb2)) := by rw [← Nat.pow_add]
        _ ≤ 2 ^ 8 := Nat.pow_le_pow_right (by omega) (by omega)
        _ = 256 := by norm_num
    have hpad32 : nb2 <<< (5 - fb2) < 32 := by
      rw [Nat.shiftLeft_eq]
      calc nb2 * 2 ^ (5 - fb2) < 2 ^ fb2 * 2 ^ (5 - fb2) :=
            Nat.mul_lt_mul_of_pos_right p2 (Nat.two_pow_pos _)
        _ = 2 ^ (fb2 + (5 - fb2)) := by rw [← Nat.pow_add]
        _ = 2 ^ 5 := by congr 1; omega
        _ = 32 := by norm_num
    have hmod : (nb2 <<< (5 - fb2)) % 256 = nb2 <<< (5 - fb2) := Nat.mod_eq_of_lt hpadlt
    refine ⟨reg2 ++ [(nb2 <<< (5 - fb2)) % 256], 5 - fb2, rfl, ?_, by omega, ?_, ?_⟩
    · intro v hv
      rcases List.mem_append.mp hv with hv | hv
      · exact p3 v hv
      · simp at hv
        subst hv
        rw [hmod]
        exact hpad32
    · simp only [List.length_append, List.length_cons, List.length_nil]
      omega
    · rw [listBits_append, hmod]
      have hbitspad : listBits 5 [nb2 <<< (5 - fb2)] =
          natBits fb2 nb2 ++ List.replicate (5 - fb2) false := by
        have h := natBits_append fb2 (5 - fb2) nb2 0 (Nat.two_pow_pos _)
        rw [Nat.mul_comm (2 ^ (5 - fb2)) nb2, Nat.add_zero, natBits_zero] at h
        have h5 : fb2 + (5 - fb2) = 5 := by omega
        rw [h5] at h
        simp only [listBits, List.flatMap_cons, List.flatMap_nil, List.append_nil]
        rw [Nat.shiftLeft_eq, h]
      rw [hbitspad, ← List.append_assoc, p4]
      have hz : natBits 0 0 = ([] : List Bool) := rfl
      rw [hz]
      simp [listBits]

/-- `ConvertBits` from 5-bit to 8-bit groups without padding recovers the bytes
whose bitstream the 5-bit groups carry, when the padding is at most 4 zero
bits. -/
theorem convertBits_5_8 (out data : List Nat) (k : Nat) (hout : ∀ v ∈ out, v < 32)
    (hdata : ∀ v ∈ data, v < 256) (hk : k ≤ 4)
    (hlen : 5 * out.length = 8 * data.length + k)
    (hbits : listBits 5 out = listBits 8 data ++ List.replicate k false) :
    convertBits out 5 8 false = .ok data := by
  obtain ⟨reg2, fb2, nb2, heq, p1, p2, p3, p4⟩ :=
    convertBits_fold_spec 5 8 (by norm_num) (by norm_num) (by norm_num)
      out [] 0 0 (by simpa using hout) (by norm_num) (by norm_num) (by simp)
  have hp4 : listBits 8 reg2 ++ natBits fb2 nb2 = listBits 5 out := by
    rw [p4]
    have hz : natBits 0 0 = ([] : List Bool) := rfl
    rw [hz]
    simp [listBits]
  have hlen2 : 8 * reg2.length + fb2 = 5 * out.length := by
    have hl := congrArg List.length hp4
    simp only [List.length_append, listBits_length, natBits_length] at hl
    omega
  have hfb2k : fb2 = k ∧ reg2.length = data.length := by omega
  obtain ⟨hfb2k, hlenk⟩ := hfb2k
  subst hfb2k
  rw [hbits] at hp4
  obtain ⟨hbeq, hneq⟩ := List.append_inj hp4
    (by rw [listBits_length, listBits_length, hlenk])
  have hreg2 : reg2 = data :=
    listBits_inj 8 reg2 data (by simpa using p3) (by simpa using hdata) hlenk hbeq
  have hnb0 : nb2 = 0 := by
    apply natBits_inj fb2 nb2 0 p2 (Nat.two_pow_pos _)
    rw [hneq, natBits_zero]
  rw [convertBits, if_neg (by norm_num)]
  dsimp only
  rw [heq]
  dsimp only
  rw [if_neg (by simp)]
  rw [if_neg (by simp [hnb0]; omega)]
  rw [hreg2]

/-- Left shift distributes over xor. -/
theorem xor_shiftLeft_distrib (a b n : Nat) : (a ^^^ b) <<< n = a <<< n ^^^ b <<< n := by
  apply Nat.eq_of_testBit_eq
  intro i
  simp only [Nat.testBit_shiftLeft, Nat.testBit_xor]
  by_cases h : n ≤ i <;> simp [h]

/-- Right shift distributes over xor. -/
theorem xor_shiftRight_distrib (a b n : Nat) : (a ^^^ b) >>> n = a >>> n ^^^ b >>> n := by
  apply Nat.eq_of_testBit_eq
  intro i
  simp [Nat.testBit_shiftRight, Nat.testBit_xor]

/-- Shifting in a low group is addition in base `2 ^ 5` when the group is small. -/
theorem shiftLeft_xor_small (x d : Nat) (hd : d < 32) : x <<< 5 ^^^ d = 2 ^ 5 * x + d := by
  apply Nat.eq_of_testBit_eq
  intro i
  rw [Nat.testBit_mul_pow_two_add x (by omega : d < 2 ^ 5) i]
  simp only [Nat.testBit_xor, Nat.testBit_shiftLeft]
  by_cases h : i < 5
  · have h5 : ¬ 5 ≤ i := by omega
    simp [h, h5]
  · have hdi : d.testBit i = false := by
      apply Nat.testBit_lt_two_pow
      have hpow : (2 : Nat) ^ 5 ≤ 2 ^ i := Nat.pow_le_pow_right (by norm_num) (by omega)
      omega
    have h5 : 5 ≤ i := by omega
    simp [h, h5, hdi]

/-- Each polymod step keeps the accumulator below `2 ^ 30`. -/
theorem bech32PolymodStep_lt (chk v : Nat) (hv : v < 2 ^ 30) :
    bech32PolymodStep chk v < 2 ^ 30 := by
  rw [bech32PolymodStep]
  have hgen : ∀ i, bech32Gen.getD i 0 < 2 ^ 30 := by
    intro i
    rcases i with _ | _ | _ | _ | _ | n <;> simp [bech32Gen, List.getD]
  have hc0 : ((chk &&& 0x1ffffff) <<< 5) ^^^ v < 2 ^ 30 := by
    apply Nat.xor_lt_two_pow ?_ hv
    rw [Nat.shiftLeft_eq]
    have hand : chk &&& 0x1ffffff < 2 ^ 25 := Nat.and_lt_two_pow chk (by norm_num)
    calc (chk &&& 0x1ffffff) * 2 ^ 5 < 2 ^ 25 * 2 ^ 5 :=
          Nat.mul_lt_mul_of_pos_right hand (by norm_num)
      _ = 2 ^ 30 := by norm_num
  have hfold : ∀ (l : List Nat) (c : Nat), c < 2 ^ 30 →
      l.foldl (fun c i => if (chk >>> 25 >>> i) &&& 1 = 1 then c ^^^ bech32Gen.getD i 0 else c)
        c < 2 ^ 30 := by
    intro l
    induction l with
    | nil => intro c hc; exact hc
    | cons x xs ih =>
      intro c hc
      rw [List.foldl_cons]
      by_cases hx : (chk >>> 25 >>> x) &&& 1 = 1
      · rw [if_pos hx]
        exact ih _ (Nat.xor_lt_two_pow hc (hgen x))
      · rw [if_neg hx]
        exact ih _ hc
  exact hfold _ _ hc0

/-- `bech32Polymod` stays below `2 ^ 30` on small inputs. -/
theorem bech32Polymod_lt (values : List Nat) (hv : ∀ v ∈ values, v < 2 ^ 30) :
    bech32Polymod values < 2 ^ 30 := by
  rw [bech32Polymod]
  have hfold : ∀ (l : List Nat) (c : Nat), (∀ v ∈ l, v < 2 ^ 30) → c < 2 ^ 30 →
      l.foldl bech32PolymodStep c < 2 ^ 30 := by
    intro l
    induction l with
    | nil => intro c _ hc; exact hc
    | cons x xs ih =>
      intro c hl hc
      rw [List.foldl_cons]
      exact ih _ (fun v hv' => hl v (by simp [hv'])) (bech32PolymodStep_lt c x (hl x (by simp)))
  exact hfold values 1 hv (by norm_num)

/-- The correction fold of a polymod step moves an xor through. -/
theorem polymod_corrections_xor (b : Nat) (l : List Nat) :
    ∀ c y, l.foldl (fun c i => if (b >>> i) &&& 1 = 1 then c ^^^ bech32Gen.getD i 0 else c)
        (c ^^^ y) =
      l.foldl (fun c i => if (b >>> i) &&& 1 = 1 then c ^^^ bech32Gen.getD i 0 else c) c ^^^ y := by
  induction l with
  | nil => intro c y; rfl
  | cons x xs ih =>
    intro c y
    rw [List.foldl_cons, List.foldl_cons]
    by_cases hx : (b >>> x) &&& 1 = 1
    · simp only [if_pos hx]
      rw [show (c ^^^ y) ^^^ bech32Gen.getD x 0 = (c ^^^ bech32Gen.getD x 0) ^^^ y by
        rw [Nat.xor_assoc, Nat.xor_comm y, ← Nat.xor_assoc]]
      exact ih _ y
    · simp only [if_neg hx]
      exact ih _ y

/-- A polymod step on `chk ^^^ y` with small `y`: the step is linear, the input
value and the shifted `y` both xor into the zero-step result. -/
theorem bech32PolymodStep_linear (chk y v : Nat) (hy : y < 2 ^ 25) :
    bech32PolymodStep (chk ^^^ y) v = bech32PolymodStep chk 0 ^^^ (y <<< 5 ^^^ v) := by
  rw [bech32PolymodStep, bech32PolymodStep]
  have hb : (chk ^^^ y) >>> 25 = chk >>> 25 := by
    apply Nat.eq_of_testBit_eq
    intro i
    simp only [Nat.testBit_shiftRight, Nat.testBit_xor]
    have hyi : y.testBit (25 + i) = false :=
      Nat.testBit_lt_two_pow (by
        calc y < 2 ^ 25 := hy
          _ ≤ 2 ^ (25 + i) := Nat.pow_le_pow_right (by norm_num) (by omega))
    simp [hyi]
  have hmask : (chk ^^^ y) &&& 0x1ffffff = (chk &&& 0x1ffffff) ^^^ y := by
    apply Nat.eq_of_testBit_eq
    intro i
    have h31 : (0x1ffffff : Nat) = 2 ^ 25 - 1 := by norm_num
    simp only [h31, Nat.testBit_and, Nat.testBit_xor, Nat.testBit_two_pow_sub_one]
    by_cases h : i < 25
    · simp [h]
    · have hyi : y.testBit i = false :=
        Nat.testBit_lt_two_pow (by
          calc y < 2 ^ 25 := hy
            _ ≤ 2 ^ i := Nat.pow_le_pow_right (by norm_num) (by omega))
      simp [h, hyi]
  rw [hb, hmask, xor_shiftLeft_distrib]
  rw [show ((chk &&& 0x1ffffff) <<< 5 ^^^ y <<< 5) ^^^ v =
    ((chk &&& 0x1ffffff) <<< 5 ^^^ 0) ^^^ (y <<< 5 ^^^ v) by
      rw [Nat.xor_zero, Nat.xor_assoc]]
  exact polymod_corrections_xor (chk >>> 25) _ _ _

/-- A shifted-in 5-bit group stays below the grown power of two. -/
theorem shiftLeft5_xor_lt (a d k : Nat) (ha : a < 2 ^ k) (hd : d < 32) :
    a <<< 5 ^^^ d < 2 ^ (k + 5) := by
  apply Nat.xor_lt_two_pow
  · rw [Nat.shiftLeft_eq, Nat.pow_add]
    exact Nat.mul_lt_mul_of_pos_right ha (by norm_num)
  · have hpow : (32 : Nat) ≤ 2 ^ (k + 5) := by
      calc (32 : Nat) = 2 ^ 5 := by norm_num
        _ ≤ 2 ^ (k + 5) := Nat.pow_le_pow_right (by norm_num) (by omega)
    omega

/-- Six polymod steps are linear in the six processed values. -/
theorem polymod_six_linear (chk c0 c1 c2 c3 c4 c5 : Nat) (h0 : c0 < 32) (h1 : c1 < 32)
    (h2 : c2 < 32) (h3 : c3 < 32) (h4 : c4 < 32) (_h5 : c5 < 32) :
    [c0, c1, c2, c3, c4, c5].foldl bech32PolymodStep chk =
      [0, 0, 0, 0, 0, 0].foldl bech32PolymodStep chk ^^^
        (((((c0 <<< 5 ^^^ c1) <<< 5 ^^^ c2) <<< 5 ^^^ c3) <<< 5 ^^^ c4) <<< 5 ^^^ c5) := by
  have hstep0 : ∀ c v, bech32PolymodStep c v = bech32PolymodStep c 0 ^^^ (0 <<< 5 ^^^ v) := by
    intro c v
    have h := bech32PolymodStep_linear c 0 v (by norm_num)
    simpa using h
  have hb1 : c0 < 2 ^ 5 := by omega
  have hb2 : c0 <<< 5 ^^^ c1 < 2 ^ 10 := shiftLeft5_xor_lt c0 c1 5 hb1 h1
  have hb3 : (c0 <<< 5 ^^^ c1) <<< 5 ^^^ c2 < 2 ^ 15 := shiftLeft5_xor_lt _ c2 10 hb2 h2
  have hb4 : ((c0 <<< 5 ^^^ c1) <<< 5 ^^^ c2) <<< 5 ^^^ c3 < 2 ^ 20 :=
    shiftLeft5_xor_lt _ c3 15 hb3 h3
  have hb5 : (((c0 <<< 5 ^^^ c1) <<< 5 ^^^ c2) <<< 5 ^^^ c3) <<< 5 ^^^ c4 < 2 ^ 25 :=
    shiftLeft5_xor_lt _ c4 20 hb4 h4
  have hy1 : c0 < 2 ^ 25 := by omega
  have hy2 : c0 <<< 5 ^^^ c1 < 2 ^ 25 := lt_of_lt_of_le hb2 (by norm_num)
  have hy3 : (c0 <<< 5 ^^^ c1) <<< 5 ^^^ c2 < 2 ^ 25 := lt_of_lt_of_le hb3 (by norm_num)
  have hy4 : ((c0 <<< 5 ^^^ c1) <<< 5 ^^^ c2) <<< 5 ^^^ c3 < 2 ^ 25 :=
    lt_of_lt_of_le hb4 (by norm_num)
  simp only [List.foldl_cons, List.foldl_nil]
  rw [hstep0 chk c0]
  simp only [Nat.zero_shiftLeft, Nat.zero_xor]
  rw [bech32PolymodStep_linear _ c0 c1 hy1]
  rw [bech32PolymodStep_linear _ _ c2 hy2]
  rw [bech32PolymodStep_linear _ _ c3 hy3]
  rw [bech32PolymodStep_linear _ _ c4 hy4]
  rw [bech32PolymodStep_linear _ _ c5 hb5]

/-- Packing the six 5-bit checksum digits back together recovers the polymod
value, provided it fits in 30 bits. -/
theorem checksum_digits_reconstruct (pm : Nat) (hpm : pm < 2 ^ 30) :
    ((((((pm >>> 25) &&& 31) <<< 5 ^^^ ((pm >>> 20) &&& 31)) <<< 5 ^^^
          ((pm >>> 15) &&& 31)) <<< 5 ^^^ ((pm >>> 10) &&& 31)) <<< 5 ^^^
        ((pm >>> 5) &&& 31)) <<< 5 ^^^ (pm &&& 31) = pm := by
  have h31 : ∀ x : Nat, x &&& 31 < 32 := fun x => Nat.lt_succ_of_le Nat.and_le_right
  rw [shiftLeft_xor_small _ _ (h31 pm)]
  rw [shiftLeft_xor_small _ _ (h31 (pm >>> 5))]
  rw [shiftLeft_xor_small _ _ (h31 (pm >>> 10))]
  rw [shiftLeft_xor_small _ _ (h31 (pm >>> 15))]
  rw [shiftLeft_xor_small _ _ (h31 (pm >>> 20))]
  have hmask : ∀ x : Nat, x &&& 31 = x % 32 := by
    intro x
    have h := Nat.and_pow_two_sub_one_eq_mod x 5
    norm_num at h
    exact h
  have hshift : ∀ x k : Nat, x >>> k = x / 2 ^ k := fun x k => Nat.shiftRight_eq_div_pow x k
  simp only [hmask, hshift]
  have h30 : pm < 1073741824 := by
    have h : (2 : Nat) ^ 30 = 1073741824 := by norm_num
    omega
  have h25 : (2 : Nat) ^ 25 = 33554432 := by norm_num
  have h20 : (2 : Nat) ^ 20 = 1048576 := by norm_num
  have h15 : (2 : Nat) ^ 15 = 32768 := by norm_num
  have h10 : (2 : Nat) ^ 10 = 1024 := by norm_num
  have h5 : (2 : Nat) ^ 5 = 32 := by norm_num
  rw [h25, h20, h15, h10, h5]
  omega

/-- Appending the computed checksum always yields a string whose checksum
verifies, for in-range hrp codes and 5-bit data. -/
theorem bech32_checksum_verifies (hrp data : List Nat)
    (hh : ∀ c ∈ hrp, c < 256) (hd : ∀ v ∈ data, v < 32) :
    bech32VerifyChecksumB hrp (data ++ bech32ChecksumOf hrp data) = true := by
  have hvals : ∀ v ∈ (bech32HrpExpand hrp ++ data) ++ [0, 0, 0, 0, 0, 0], v < 2 ^ 30 := by
    intro v hv
    rw [List.mem_append, List.mem_append] at hv
    rcases hv with (hv | hv) | hv
    · rw [bech32HrpExpand, List.mem_append, List.mem_append] at hv
      rcases hv with (hv | hv) | hv
      · obtain ⟨c, hc, rfl⟩ := List.mem_map.mp hv
        have h1 : c >>> 5 ≤ c := by
          rw [Nat.shiftRight_eq_div_pow]
          exact Nat.div_le_self c (2 ^ 5)
        have h2 := hh c hc
        have h3 : (2 : Nat) ^ 30 = 1073741824 := by norm_num
        omega
      · simp only [List.mem_singleton] at hv
        subst hv
        norm_num
      · obtain ⟨c, hc, rfl⟩ := List.mem_map.mp hv
        have h1 : c &&& 31 ≤ 31 := Nat.and_le_right
        have h3 : (2 : Nat) ^ 30 = 1073741824 := by norm_num
        omega
    · have h1 := hd v hv
      have h3 : (2 : Nat) ^ 30 = 1073741824 := by norm_num
      omega
    · simp only [List.mem_cons, List.not_mem_nil, or_false] at hv
      have h3 : (2 : Nat) ^ 30 = 1073741824 := by norm_num
      omega
  have hpmlt :
      bech32Polymod ((bech32HrpExpand hrp ++ data) ++ [0, 0, 0, 0, 0, 0]) ^^^ 1 < 2 ^ 30 :=
    Nat.xor_lt_two_pow (bech32Polymod_lt _ hvals) (by norm_num)
  have hcs : bech32ChecksumOf hrp data =
      [(bech32Polymod ((bech32HrpExpand hrp ++ data) ++ [0, 0, 0, 0, 0, 0]) ^^^ 1) >>> 25 &&& 31,
       (bech32Polymod ((bech32HrpExpand hrp ++ data) ++ [0, 0, 0, 0, 0, 0]) ^^^ 1) >>> 20 &&& 31,
       (bech32Polymod ((bech32HrpExpand hrp ++ data) ++ [0, 0, 0, 0, 0, 0]) ^^^ 1) >>> 15 &&& 31,
       (bech32Polymod ((bech32HrpExpand hrp ++ data) ++ [0, 0, 0, 0, 0, 0]) ^^^ 1) >>> 10 &&& 31,
       (bech32Polymod ((bech32HrpExpand hrp ++ data) ++ [0, 0, 0, 0, 0, 0]) ^^^ 1) >>> 5 &&& 31,
       (bech32Polymod ((bech32HrpExpand hrp ++ data) ++ [0, 0, 0, 0, 0, 0]) ^^^ 1) &&& 31] := by
    rw [bech32ChecksumOf]
    simp only [show List.range 6 = [0, 1, 2, 3, 4, 5] from rfl, List.map_cons, List.map_nil]
    norm_num
  have h31 : ∀ x : Nat, x &&& 31 < 32 := fun x => Nat.lt_succ_of_le Nat.and_le_right
  rw [bech32VerifyChecksumB, hcs, bech32Polymod, ← List.append_assoc, List.foldl_append]
  rw [polymod_six_linear _ _ _ _ _ _ _ (h31 _) (h31 _) (h31 _) (h31 _) (h31 _) (h31 _)]
  rw [checksum_digits_reconstruct _ hpmlt]
  have hZ : bech32Polymod ((bech32HrpExpand hrp ++ data) ++ [0, 0, 0, 0, 0, 0]) =
      [0, 0, 0, 0, 0, 0].foldl bech32PolymodStep
        ((bech32HrpExpand hrp ++ data).foldl bech32PolymodStep 1) := by
    rw [bech32Polymod, List.foldl_append]
  rw [← hZ, Nat.xor_cancel_left]
  rfl

/-- Charset characters are printable ASCII. -/
theorem bech32CharsetCode_range :
    ∀ v < 32, 33 ≤ bech32CharsetCode v ∧ bech32CharsetCode v ≤ 126 := by decide

/-- Charset characters are never upper-case letters. -/
theorem bech32CharsetCode_not_upper :
    ∀ v < 32, ¬ (65 ≤ bech32CharsetCode v ∧ bech32CharsetCode v ≤ 90) := by decide

/-- Charset characters are never the separator `1`. -/
theorem bech32CharsetCode_ne_sep : ∀ v < 32, bech32CharsetCode v ≠ 49 := by decide

/-- Reverse charset lookup inverts the charset map. -/
theorem indexOf_charsetCode :
    ∀ v < 32, indexOfNat bech32CharsetCodes (bech32CharsetCode v) = some v := by decide

/-- Charset codes survive the `Char` round trip. -/
theorem charsetChar_toNat :
    ∀ v < 32, (Char.ofNat (bech32CharsetCode v)).toNat = bech32CharsetCode v := by decide

/-- Decoding the charset image of a 5-bit list recovers the list. -/
theorem bech32ToBytes_of_codes (l : List Nat) (hl : ∀ v ∈ l, v < 32) :
    bech32ToBytes (l.map bech32CharsetCode) = some l := by
  induction l with
  | nil => rfl
  | cons x xs ih =>
    have h1 : indexOfNat bech32CharsetCodes (bech32CharsetCode x) = some x :=
      indexOf_charsetCode x (hl x (by simp))
    have h2 := ih (fun v hv => hl v (by simp [hv]))
    simp [bech32ToBytes, h1, h2]

/-- `lastIndexOfNat` misses a value that is not in the list. -/
theorem lastIndexOfNat_not_mem (l : List Nat) (v : Nat) (h : v ∉ l) :
    lastIndexOfNat l v = none := by
  induction l with
  | nil => rfl
  | cons x xs ih =>
    have hx : ¬ x = v := fun he => h (by simp [he])
    have htl := ih (fun hm => h (by simp [hm]))
    simp [lastIndexOfNat, htl, hx]

/-- `lastIndexOfNat` finds the separator when nothing to its right matches. -/
theorem lastIndexOfNat_append_sep (a b : List Nat) (h : 49 ∉ b) :
    lastIndexOfNat (a ++ 49 :: b) 49 = some a.length := by
  induction a with
  | nil =>
    simp only [List.nil_append, lastIndexOfNat, lastIndexOfNat_not_mem b 49 h]
    simp
  | cons x xs ih =>
    simp only [List.cons_append, lastIndexOfNat, List.append_eq]
    rw [ih]
    simp

/-- The checksum always has six digits. -/
theorem bech32ChecksumOf_length (hrp data : List Nat) :
    (bech32ChecksumOf hrp data).length = 6 := by
  simp [bech32ChecksumOf]

/-- Checksum digits are 5-bit values. -/
theorem bech32ChecksumOf_lt (hrp data : List Nat) :
    ∀ v ∈ bech32ChecksumOf hrp data, v < 32 := by
  intro v hv
  simp only [bech32ChecksumOf, List.mem_map] at hv
  obtain ⟨i, _, rfl⟩ := hv
  exact Nat.lt_succ_of_le Nat.and_le_right

/-- Decoding the bech32 encoding of 5-bit data under a well-formed hrp
recovers the hrp and the data. -/
theorem bech32Decode_of_encode (hrp : String) (d5 : List Nat)
    (hne : hrp.data ≠ [])
    (hrange : ∀ c ∈ hrp.data, 33 ≤ c.toNat ∧ c.toNat ≤ 126)
    (hupper : ∀ c ∈ hrp.data, ¬ (65 ≤ c.toNat ∧ c.toNat ≤ 90))
    (hd5 : ∀ v ∈ d5, v < 32) (hd5ne : d5 ≠ []) :
    bech32DecodeNoLimit (hrp ++ "1" ++ String.mk
        ((d5 ++ bech32ChecksumOf (hrp.data.map Char.toNat) d5).map
          (fun v => Char.ofNat (bech32CharsetCode v)))) =
      .ok (hrp, d5) := by
  have hcomb : ∀ v ∈ d5 ++ bech32ChecksumOf (hrp.data.map Char.toNat) d5, v < 32 := by
    intro v hv
    rcases List.mem_append.mp hv with hv | hv
    · exact hd5 v hv
    · exact bech32ChecksumOf_lt _ _ v hv
  have hdata_eq : (hrp ++ "1" ++ String.mk
      ((d5 ++ bech32ChecksumOf (hrp.data.map Char.toNat) d5).map
        (fun v => Char.ofNat (bech32CharsetCode v)))).data =
      hrp.data ++ '1' ::
        ((d5 ++ bech32ChecksumOf (hrp.data.map Char.toNat) d5).map
          (fun v => Char.ofNat (bech32CharsetCode v))) := by
    rw [String.data_append, String.data_append]
    simp
  have hmap : (hrp.data ++ '1' ::
      ((d5 ++ bech32ChecksumOf (hrp.data.map Char.toNat) d5).map
        (fun v => Char.ofNat (bech32CharsetCode v)))).map Char.toNat =
      hrp.data.map Char.toNat ++ 49 ::
        ((d5 ++ bech32ChecksumOf (hrp.data.map Char.toNat) d5).map bech32CharsetCode) := by
    rw [List.map_append, List.map_cons, List.map_map]
    congr 1
    · congr 1
      apply List.map_congr_left
      intro v hv
      exact charsetChar_toNat v (hcomb v hv)
  have hclen : (bech32ChecksumOf (hrp.data.map Char.toNat) d5).length = 6 :=
    bech32ChecksumOf_length _ _
  have hd5len : 1 ≤ d5.length := by
    cases d5 with
    | nil => exact absurd rfl hd5ne
    | cons x xs => simp
  have hhlen : 1 ≤ hrp.data.length := by
    cases hd : hrp.data with
    | nil => exact absurd hd hne
    | cons x xs => simp
  rw [bech32DecodeNoLimit, hdata_eq, hmap]
  rw [if_neg (by
    simp only [List.length_append, List.length_cons, List.length_map]
    omega)]
  have hcomb2 : ∀ v, v ∈ d5 ∨ v ∈ bech32ChecksumOf (hrp.data.map Char.toNat) d5 → v < 32 :=
    fun v hv => hcomb v (List.mem_append.mpr hv)
  rw [if_neg (by
    simp only [not_not, List.all_eq_true, List.mem_append, List.mem_cons, List.mem_map]
    rintro c (⟨ch, hch, rfl⟩ | rfl | ⟨v, hv, rfl⟩)
    · have h := hrange ch hch
      simp only [decide_eq_true_eq]
      omega
    · simp
    · have h := bech32CharsetCode_range v (hcomb2 v hv)
      simp only [decide_eq_true_eq]
      omega)]
  have hupperF : (hrp.data.map Char.toNat ++ 49 ::
      ((d5 ++ bech32ChecksumOf (hrp.data.map Char.toNat) d5).map bech32CharsetCode)).any
        (fun c => decide (65 ≤ c ∧ c ≤ 90)) = false := by
    simp only [List.any_eq_false, List.mem_append, List.mem_cons, List.mem_map]
    rintro c (⟨ch, hch, rfl⟩ | rfl | ⟨v, hv, rfl⟩)
    · have h := hupper ch hch
      simp only [decide_eq_true_eq]
      omega
    · simp
    · have h := bech32CharsetCode_not_upper v (hcomb2 v hv)
      simp only [decide_eq_true_eq]
      exact fun hcon => h hcon
  rw [if_neg (by
    rw [hupperF]
    simp)]
  rw [if_neg (by rw [hupperF]; simp : ¬ ((hrp.data.map Char.toNat ++ 49 ::
      ((d5 ++ bech32ChecksumOf (hrp.data.map Char.toNat) d5).map bech32CharsetCode)).any
        (fun c => decide (65 ≤ c ∧ c ≤ 90)) = true))]
  dsimp only
  rw [lastIndexOfNat_append_sep _ _ (by
    intro hmem
    obtain ⟨v, hv, hveq⟩ := List.mem_map.mp hmem
    exact bech32CharsetCode_ne_sep v (hcomb v hv) hveq)]
  dsimp only
  rw [if_neg (by
    simp only [List.length_append, List.length_cons, List.length_map, List.length_append]
    rw [hclen]
    omega)]
  have hdrop : (hrp.data.map Char.toNat ++ 49 ::
      ((d5 ++ bech32ChecksumOf (hrp.data.map Char.toNat) d5).map bech32CharsetCode)).drop
        ((hrp.data.map Char.toNat).length + 1) =
      (d5 ++ bech32ChecksumOf (hrp.data.map Char.toNat) d5).map bech32CharsetCode := by
    rw [show (hrp.data.map Char.toNat ++ 49 ::
        ((d5 ++ bech32ChecksumOf (hrp.data.map Char.toNat) d5).map bech32CharsetCode)) =
        (hrp.data.map Char.toNat ++ [49]) ++
          ((d5 ++ bech32ChecksumOf (hrp.data.map Char.toNat) d5).map bech32CharsetCode) by
      simp]
    rw [show (hrp.data.map Char.toNat).length + 1 =
        (hrp.data.map Char.toNat ++ [49]).length by simp]
    exact List.drop_left _ _
  rw [hdrop]
  rw [bech32ToBytes_of_codes _ hcomb]
  dsimp only
  have htake : (hrp.data.map Char.toNat ++ 49 ::
      ((d5 ++ bech32ChecksumOf (hrp.data.map Char.toNat) d5).map bech32CharsetCode)).take
        (hrp.data.map Char.toNat).length = hrp.data.map Char.toNat :=
    List.take_left _ _
  rw [htake]
  rw [if_pos (bech32_checksum_verifies (hrp.data.map Char.toNat) d5
    (by
      intro c hc
      obtain ⟨ch, hch, rfl⟩ := List.mem_map.mp hc
      have h := hrange ch hch
      omega)
    hd5)]
  have hmk : String.mk ((hrp.data.map Char.toNat).map Char.ofNat) = hrp := by
    rw [List.map_map]
    have hid : hrp.data.map (Char.ofNat ∘ Char.toNat) = hrp.data.map id := by
      apply List.map_congr_left
      intro c _
      exact Char.ofNat_toNat c
    rw [hid, List.map_id]
  have htk : (d5 ++ bech32ChecksumOf (hrp.data.map Char.toNat) d5).take
      ((d5 ++ bech32ChecksumOf (hrp.data.map Char.toNat) d5).length - 6) = d5 := by
    rw [List.length_append, hclen]
    rw [show d5.length + 6 - 6 = d5.length from by omega]
    exact List.take_left d5 _
  rw [hmk, htk]

/-- No character of a list satisfying a failing predicate is dropped. -/
theorem dropWhile_eq_self_of_all (p : Char → Bool) (l : List Char)
    (h : ∀ c ∈ l, p c = false) : l.dropWhile p = l := by
  cases l with
  | nil => rfl
  | cons x xs => simp [List.dropWhile_cons, h x (by simp)]

/-- Characters at or above code 33 are not Go whitespace. -/
theorem isGoSpace_false_of_ge (c : Char) (h : 33 ≤ c.toNat) : isGoSpace c = false := by
  simp only [isGoSpace, decide_eq_false_iff_not]
  rintro (h1 | h1 | h1 | h1 | h1 | h1) <;> subst h1 <;> exact absurd h (by decide)

/-- `TrimSpace` is the identity on strings without whitespace. -/
theorem goTrimSpace_eq_self (s : String) (h : ∀ c ∈ s.data, isGoSpace c = false) :
    goTrimSpace s = s := by
  rw [goTrimSpace, dropWhile_eq_self_of_all _ _ h]
  rw [dropWhile_eq_self_of_all _ _ (fun c hc => h c (by simpa using hc))]
  rw [List.reverse_reverse]

/-- `DecodeAndConvert` inverts `ConvertAndEncode` for well-formed hrps and
non-empty byte data. -/
theorem decodeAndConvert_of_encode (hrp : String) (data : List Nat)
    (hne : hrp.data ≠ [])
    (hrange : ∀ c ∈ hrp.data, 33 ≤ c.toNat ∧ c.toNat ≤ 126)
    (hupper : ∀ c ∈ hrp.data, ¬ (65 ≤ c.toNat ∧ c.toNat ≤ 90))
    (hdata : ∀ b ∈ data, b < 256) (hdne : data ≠ []) :
    ∃ s, convertAndEncode hrp data = .ok s ∧ decodeAndConvert s = .ok (hrp, data) ∧
      goTrimSpace s = s ∧ s.data ≠ [] := by
  obtain ⟨d5, k, henc, hlt, hk, hlen, hbits⟩ := convertBits_8_5 data hdata
  have hd5ne : d5 ≠ [] := by
    intro h
    subst h
    cases data with
    | nil => exact hdne rfl
    | cons x xs =>
      simp only [List.length_nil, List.length_cons] at hlen
      omega
  have hall : (d5 ++ bech32ChecksumOf (hrp.data.map Char.toNat) d5).all
      (fun v => decide (v < 32)) = true := by
    simp only [List.all_eq_true, List.mem_append, decide_eq_true_eq]
    rintro v (hv | hv)
    · exact hlt v hv
    · exact bech32ChecksumOf_lt _ _ v hv
  have hcomb : ∀ v ∈ d5 ++ bech32ChecksumOf (hrp.data.map Char.toNat) d5, v < 32 := by
    intro v hv
    rcases List.mem_append.mp hv with hv | hv
    · exact hlt v hv
    · exact bech32ChecksumOf_lt _ _ v hv
  have hdata_eq : (hrp ++ "1" ++ String.mk
      ((d5 ++ bech32ChecksumOf (hrp.data.map Char.toNat) d5).map
        (fun v => Char.ofNat (bech32CharsetCode v)))).data =
      hrp.data ++ '1' ::
        ((d5 ++ bech32ChecksumOf (hrp.data.map Char.toNat) d5).map
          (fun v => Char.ofNat (bech32CharsetCode v))) := by
    rw [String.data_append, String.data_append]
    simp
  refine ⟨hrp ++ "1" ++ String.mk
      ((d5 ++ bech32ChecksumOf (hrp.data.map Char.toNat) d5).map
        (fun v => Char.ofNat (bech32CharsetCode v))), ?_, ?_, ?_, ?_⟩
  · rw [convertAndEncode, henc]
    simp only [bech32EncodeStr]
    rw [if_pos hall]
  · rw [decodeAndConvert]
    rw [bech32Decode_of_encode hrp d5 hne hrange hupper hlt hd5ne]
    dsimp only
    rw [convertBits_5_8 d5 data k hlt hdata hk hlen hbits]
  · apply goTrimSpace_eq_self
    rw [hdata_eq]
    intro c hc
    apply isGoSpace_false_of_ge
    rcases List.mem_append.mp hc with hc | hc
    · exact (hrange c hc).1
    · rcases List.mem_cons.mp hc with rfl | hc
      · decide
      · obtain ⟨v, hv, rfl⟩ := List.mem_map.mp hc
        have h1 := charsetChar_toNat v (hcomb v hv)
        have h2 := bech32CharsetCode_range v (hcomb v hv)
        omega
  · rw [hdata_eq]
    simp

/-- The six recognized hrps are non-empty, printable, and free of upper-case
letters. -/
theorem hrp_wellformed : ∀ hrp ∈ [PrefixScope, PrefixSession, PrefixRecord,
    PrefixScopeSpecification, PrefixContractSpecification, PrefixRecordSpecification],
    hrp.data ≠ [] ∧ (∀ c ∈ hrp.data, 33 ≤ c.toNat ∧ c.toNat ≤ 126) ∧
      (∀ c ∈ hrp.data, ¬ (65 ≤ c.toNat ∧ c.toNat ≤ 90)) := by decide

/-- `ParseMetadataAddressFromBech32 ∘ String` recovers the bytes and hrp of any
address that passes the format check. -/
theorem stringThenParse_ok (ma : List Nat) (hrp0 : String)
    (hver : verifyMetadataAddressFormat ma = (hrp0, none))
    (hbytes : ∀ b ∈ ma, b < 256) :
    stringThenParse ma = .ok (ma, hrp0) := by
  obtain ⟨hne_ma, hcases⟩ := verify_ok_cases ma hrp0 hver
  have hwf : hrp0.data ≠ [] ∧ (∀ c ∈ hrp0.data, 33 ≤ c.toNat ∧ c.toNat ≤ 126) ∧
      (∀ c ∈ hrp0.data, ¬ (65 ≤ c.toNat ∧ c.toNat ≤ 90)) := by
    rcases hcases with ⟨h, _⟩ | ⟨h, _⟩ | ⟨h, _⟩ | ⟨h, _⟩ | ⟨h, _⟩ | ⟨h, _⟩ <;> subst h <;>
      first
      | exact hrp_wellformed PrefixScope (by simp)
      | exact hrp_wellformed PrefixSession (by simp)
      | exact hrp_wellformed PrefixRecord (by simp)
      | exact hrp_wellformed PrefixScopeSpecification (by simp)
      | exact hrp_wellformed PrefixContractSpecification (by simp)
      | exact hrp_wellformed PrefixRecordSpecification (by simp)
  obtain ⟨hwf1, hwf2, hwf3⟩ := hwf
  obtain ⟨s, hencode, hdecode, htrim, hsne⟩ :=
    decodeAndConvert_of_encode hrp0 ma hwf1 hwf2 hwf3 hbytes hne_ma
  have hstr : maString ma = s := by
    rw [maString, if_neg (by simp [hne_ma]), hver]
    dsimp only
    rw [hencode]
  rw [stringThenParse, hstr, parseMetadataAddressFromBech32]
  rw [if_neg (by
    rw [htrim]
    simp only [String.length]
    intro hzero
    exact hsne (List.length_eq_zero.mp hzero))]
  rw [hdecode]
  dsimp only
  rw [hver]
  dsimp only
  rw [if_neg (by simp)]

/-- Big-endian words decompose into bytes below 256. -/
theorem be32_lt (n : Nat) : ∀ b ∈ be32 n, b < 256 := by
  intro b hb
  simp only [be32, List.mem_cons, List.not_mem_nil, or_false] at hb
  rcases hb with rfl | rfl | rfl | rfl <;> exact Nat.mod_lt _ (by norm_num)

/-- The digest has 32 bytes. -/
theorem sha256Bytes_length (msg : List Nat) : (sha256Bytes msg).length = 32 := by
  simp [sha256Bytes, be32]

/-- Digest bytes are below 256. -/
theorem sha256Bytes_lt (msg : List Nat) : ∀ b ∈ sha256Bytes msg, b < 256 := by
  intro b hb
  simp only [sha256Bytes, List.mem_append] at hb
  rcases hb with ((((((hb | hb) | hb) | hb) | hb) | hb) | hb) | hb <;> exact be32_lt _ b hb

/-- A scope address built from a 16-byte UUID passes the format check. -/
theorem verify_scope_addr (u : List Nat) (hu : u.length = 16) :
    verifyMetadataAddressFormat (scopeMetadataAddress u) = (PrefixScope, none) := by
  have htake : u.take 16 = u := List.take_of_length_le (by omega)
  simp [scopeMetadataAddress, verifyMetadataAddressFormat, ScopeKeyPrefixBytes, SessionKeyPrefixBytes, RecordKeyPrefixBytes,
    ScopeSpecificationKeyPrefixBytes, ContractSpecificationKeyPrefixBytes,
    RecordSpecificationKeyPrefixBytes,
    uuidFromBytes, hu, htake]

/-- A session address built from two 16-byte UUIDs passes the format check. -/
theorem verify_session_addr (u v : List Nat) (hu : u.length = 16) (hv : v.length = 16) :
    verifyMetadataAddressFormat (sessionMetadataAddress u v) = (PrefixSession, none) := by
  have ht1 : (u ++ v).take 16 = u := by rw [← hu]; exact List.take_left u v
  have ht2 : (u ++ v).drop 16 = v := by rw [← hu]; exact List.drop_left u v
  have ht3 : v.take 16 = v := List.take_of_length_le (by omega)
  simp [sessionMetadataAddress, verifyMetadataAddressFormat, ScopeKeyPrefixBytes, SessionKeyPrefixBytes, RecordKeyPrefixBytes,
    ScopeSpecificationKeyPrefixBytes, ContractSpecificationKeyPrefixBytes,
    RecordSpecificationKeyPrefixBytes,
    uuidFromBytes, hu, hv, ht1, ht2, ht3]

/-- A record address built by the constructor passes the format check. -/
theorem verify_record_addr (u : List Nat) (name : String) (hu : u.length = 16)
    (hname : 1 ≤ (goToLower (goTrimSpace name)).length) :
    recordMetadataAddress u name =
      .ok (RecordKeyPrefixBytes ++ u ++
        (sha256Bytes (stringToBytes (goToLower (goTrimSpace name)))).take 16) ∧
    verifyMetadataAddressFormat (RecordKeyPrefixBytes ++ u ++
        (sha256Bytes (stringToBytes (goToLower (goTrimSpace name)))).take 16) =
      (PrefixRecord, none) := by
  constructor
  · simp only [recordMetadataAddress]
    rw [if_neg (by omega)]
  · have hh : ((sha256Bytes (stringToBytes (goToLower (goTrimSpace name)))).take 16).length
        = 16 := by
      rw [List.length_take, sha256Bytes_length]
      omega
    have ht1 : (u ++ (sha256Bytes (stringToBytes (goToLower (goTrimSpace name)))).take 16).take
        16 = u := by rw [← hu]; exact List.take_left u _
    have ht2 : (u ++ (sha256Bytes (stringToBytes (goToLower (goTrimSpace name)))).take 16).drop
        16 = (sha256Bytes (stringToBytes (goToLower (goTrimSpace name)))).take 16 := by
      rw [← hu]; exact List.drop_left u _
    have ht3 : ((sha256Bytes (stringToBytes (goToLower (goTrimSpace name)))).take 16).take 16 =
        (sha256Bytes (stringToBytes (goToLower (goTrimSpace name)))).take 16 :=
      List.take_of_length_le (by omega)
    simp [verifyMetadataAddressFormat, ScopeKeyPrefixBytes, SessionKeyPrefixBytes, RecordKeyPrefixBytes,
    ScopeSpecificationKeyPrefixBytes, ContractSpecificationKeyPrefixBytes,
    RecordSpecificationKeyPrefixBytes, uuidFromBytes, hu, hh,
      ht1, ht2, ht3]

/-- A scope specification address built from a 16-byte UUID passes the format
check. -/
theorem verify_scopespec_addr (u : List Nat) (hu : u.length = 16) :
    verifyMetadataAddressFormat (scopeSpecMetadataAddress u) =
      (PrefixScopeSpecification, none) := by
  have htake : u.take 16 = u := List.take_of_length_le (by omega)
  simp [scopeSpecMetadataAddress, verifyMetadataAddressFormat, ScopeKeyPrefixBytes, SessionKeyPrefixBytes, RecordKeyPrefixBytes,
    ScopeSpecificationKeyPrefixBytes, ContractSpecificationKeyPrefixBytes,
    RecordSpecificationKeyPrefixBytes,
    uuidFromBytes, hu, htake]

/-- A contract specification address built from a 16-byte UUID passes the
format check. -/
theorem verify_contractspec_addr (u : List Nat) (hu : u.length = 16) :
    verifyMetadataAddressFormat (contractSpecMetadataAddress u) =
      (PrefixContractSpecification, none) := by
  have htake : u.take 16 = u := List.take_of_length_le (by omega)
  simp [contractSpecMetadataAddress, verifyMetadataAddressFormat, ScopeKeyPrefixBytes, SessionKeyPrefixBytes, RecordKeyPrefixBytes,
    ScopeSpecificationKeyPrefixBytes, ContractSpecificationKeyPrefixBytes,
    RecordSpecificationKeyPrefixBytes,
    uuidFromBytes, hu, htake]

/-- A record specification address built by the constructor passes the format
check. -/
theorem verify_recspec_addr (u : List Nat) (name : String) (hu : u.length = 16)
    (hname : 1 ≤ (goToLower (goTrimSpace name)).length) :
    recordSpecMetadataAddress u name =
      .ok (RecordSpecificationKeyPrefixBytes ++ u ++
        (sha256Bytes (stringToBytes (goToLower (goTrimSpace name)))).take 16) ∧
    verifyMetadataAddressFormat (RecordSpecificationKeyPrefixBytes ++ u ++
        (sha256Bytes (stringToBytes (goToLower (goTrimSpace name)))).take 16) =
      (PrefixRecordSpecification, none) := by
  constructor
  · simp only [recordSpecMetadataAddress]
    rw [if_neg (by omega)]
  · have hh : ((sha256Bytes (stringToBytes (goToLower (goTrimSpace name)))).take 16).length
        = 16 := by
      rw [List.length_take, sha256Bytes_length]
      omega
    have ht1 : (u ++ (sha256Bytes (stringToBytes (goToLower (goTrimSpace name)))).take 16).take
        16 = u := by rw [← hu]; exact List.take_left u _
    have ht2 : (u ++ (sha256Bytes (stringToBytes (goToLower (goTrimSpace name)))).take 16).drop
        16 = (sha256Bytes (stringToBytes (goToLower (goTrimSpace name)))).take 16 := by
      rw [← hu]; exact List.drop_left u _
    have ht3 : ((sha256Bytes (stringToBytes (goToLower (goTrimSpace name)))).take 16).take 16 =
        (sha256Bytes (stringToBytes (goToLower (goTrimSpace name)))).take 16 :=
      List.take_of_length_le (by omega)
    simp [verifyMetadataAddressFormat, ScopeKeyPrefixBytes, SessionKeyPrefixBytes, RecordKeyPrefixBytes,
    ScopeSpecificationKeyPrefixBytes, ContractSpecificationKeyPrefixBytes,
    RecordSpecificationKeyPrefixBytes, uuidFromBytes, hu, hh,
      ht1, ht2, ht3]

/-- C2: for every valid type and identity combination (16-byte UUIDs, and a
name that is non-empty after normalization for the name-hashed types),
decoding the text form of a freshly encoded address round-trips:
`ParseMetadataAddressFromBech32 (String (…MetadataAddress …))` returns the
original address bytes together with that type's expected prefix and no
error. -/
theorem c2_round_trip (u v : List Nat) (name : String)
    (hu : u.length = 16) (hub : ∀ b ∈ u, b < 256)
    (hv : v.length = 16) (hvb : ∀ b ∈ v, b < 256)
    (hname : 1 ≤ (goToLower (goTrimSpace name)).length) :
    stringThenParse (scopeMetadataAddress u) = .ok (scopeMetadataAddress u, PrefixScope) ∧
    stringThenParse (sessionMetadataAddress u v) =
      .ok (sessionMetadataAddress u v, PrefixSession) ∧
    (∃ ma, recordMetadataAddress u name = .ok ma ∧
      stringThenParse ma = .ok (ma, PrefixRecord)) ∧
    stringThenParse (scopeSpecMetadataAddress u) =
      .ok (scopeSpecMetadataAddress u, PrefixScopeSpecification) ∧
    stringThenParse (contractSpecMetadataAddress u) =
      .ok (contractSpecMetadataAddress u, PrefixContractSpecification) ∧
    (∃ ma, recordSpecMetadataAddress u name = .ok ma ∧
      stringThenParse ma = .ok (ma, PrefixRecordSpecification)) := by
  refine ⟨?_, ?_, ?_, ?_, ?_, ?_⟩
  · refine stringThenParse_ok _ _ (verify_scope_addr u hu) ?_
    intro b hb
    simp only [scopeMetadataAddress, ScopeKeyPrefixBytes, List.singleton_append,
      List.mem_cons] at hb
    rcases hb with rfl | hb
    · norm_num
    · exact hub b hb
  · refine stringThenParse_ok _ _ (verify_session_addr u v hu hv) ?_
    intro b hb
    simp only [sessionMetadataAddress, SessionKeyPrefixBytes, List.singleton_append,
      List.append_assoc, List.cons_append, List.nil_append, List.mem_cons,
      List.mem_append] at hb
    rcases hb with rfl | hb | hb
    · norm_num
    · exact hub b hb
    · exact hvb b hb
  · obtain ⟨hok, hver⟩ := verify_record_addr u name hu hname
    refine ⟨_, hok, stringThenParse_ok _ _ hver ?_⟩
    intro b hb
    simp only [RecordKeyPrefixBytes, List.singleton_append, List.append_assoc,
      List.cons_append, List.nil_append, List.mem_cons, List.mem_append] at hb
    rcases hb with rfl | hb | hb
    · norm_num
    · exact hub b hb
    · exact sha256Bytes_lt _ b (List.mem_of_mem_take hb)
  · refine stringThenParse_ok _ _ (verify_scopespec_addr u hu) ?_
    intro b hb
    simp only [scopeSpecMetadataAddress, ScopeSpecificationKeyPrefixBytes,
      List.singleton_append, List.mem_cons] at hb
    rcases hb with rfl | hb
    · norm_num
    · exact hub b hb
  · refine stringThenParse_ok _ _ (verify_contractspec_addr u hu) ?_
    intro b hb
    simp only [contractSpecMetadataAddress, ContractSpecificationKeyPrefixBytes,
      List.singleton_append, List.mem_cons] at hb
    rcases hb with rfl | hb
    · norm_num
    · exact hub b hb
  · obtain ⟨hok, hver⟩ := verify_recspec_addr u name hu hname
    refine ⟨_, hok, stringThenParse_ok _ _ hver ?_⟩
    intro b hb
    simp only [RecordSpecificationKeyPrefixBytes, List.singleton_append, List.append_assoc,
      List.cons_append, List.nil_append, List.mem_cons, List.mem_append] at hb
    rcases hb with rfl | hb | hb
    · norm_num
    · exact hub b hb
    · exact sha256Bytes_lt _ b (List.mem_of_mem_take hb)

/-- Witness for C2 at a concrete pair of UUIDs and a concrete name. -/
theorem c2_round_trip_witness :
    stringThenParse (scopeMetadataAddress (List.replicate 16 7)) =
      .ok (scopeMetadataAddress (List.replicate 16 7), PrefixScope) ∧
    stringThenParse (sessionMetadataAddress (List.replicate 16 7) (List.replicate 16 9)) =
      .ok (sessionMetadataAddress (List.replicate 16 7) (List.replicate 16 9), PrefixSession) ∧
    (∃ ma, recordMetadataAddress (List.replicate 16 7) "Foo" = .ok ma ∧
      stringThenParse ma = .ok (ma, PrefixRecord)) ∧
    stringThenParse (scopeSpecMetadataAddress (List.replicate 16 7)) =
      .ok (scopeSpecMetadataAddress (List.replicate 16 7), PrefixScopeSpecification) ∧
    stringThenParse (contractSpecMetadataAddress (List.replicate 16 7)) =
      .ok (contractSpecMetadataAddress (List.replicate 16 7), PrefixContractSpecification) ∧
    (∃ ma, recordSpecMetadataAddress (List.replicate 16 7) "Foo" = .ok ma ∧
      stringThenParse ma = .ok (ma, PrefixRecordSpecification)) :=
  c2_round_trip (List.replicate 16 7) (List.replicate 16 9) "Foo"
    (by decide) (by decide) (by decide) (by decide) (by decide)

/-- C3: re-encoding the bytes of any valid address under a different
well-formed hrp and parsing the resulting text fails with the prefix-mismatch
error comparing the expected prefix (recovered from the bytes) with the
decoded hrp. -/
theorem c3_prefix_mismatch (ma : List Nat) (hrp0 hrp2 : String)
    (hver : verifyMetadataAddressFormat ma = (hrp0, none))
    (hbytes : ∀ b ∈ ma, b < 256)
    (hne : hrp2.data ≠ [])
    (hrange : ∀ c ∈ hrp2.data, 33 ≤ c.toNat ∧ c.toNat ≤ 126)
    (hupper : ∀ c ∈ hrp2.data, ¬ (65 ≤ c.toNat ∧ c.toNat ≤ 90))
    (hdiff : hrp2 ≠ hrp0) :
    reencodeWithHrpThenParse hrp2 ma =
      .error ("invalid bech32 prefix; expected " ++ hrp0 ++ ", got " ++ hrp2) := by
  obtain ⟨hne_ma, _⟩ := verify_ok_cases ma hrp0 hver
  obtain ⟨s, hencode, hdecode, htrim, hsne⟩ :=
    decodeAndConvert_of_encode hrp2 ma hne hrange hupper hbytes hne_ma
  rw [reencodeWithHrpThenParse, hencode]
  dsimp only
  rw [parseMetadataAddressFromBech32]
  rw [if_neg (by
    rw [htrim]
    simp only [String.length]
    intro hzero
    exact hsne (List.length_eq_zero.mp hzero))]
  rw [hdecode]
  dsimp only
  rw [hver]
  dsimp only
  rw [if_pos (fun h => hdiff h.symm)]

/-- Witness for C3: a concrete scope address re-encoded under the session
hrp. -/
theorem c3_prefix_mismatch_witness :
    reencodeWithHrpThenParse PrefixSession (scopeMetadataAddress (List.replicate 16 7)) =
      .error ("invalid bech32 prefix; expected " ++ PrefixScope ++ ", got " ++ PrefixSession) :=
  c3_prefix_mismatch (scopeMetadataAddress (List.replicate 16 7)) PrefixScope PrefixSession
    (by decide) (by decide) (by decide) (by decide) (by decide) (by decide)

end Prov
